import Mathlib

/-!
Verification of the session-orchestration core of the `vls-speech2text`
repository (files `web_app.py`, `web_app_simple.py`, `vlc_speech2text.py`,
`ffmpeg_whisper.py`), via a shallow embedding of its subtitle store, its
chunk-discovery/transcription loop, its SRT serialization and parsing, and
its session start-verification and cleanup logic.

Conventions of the embedding:
* Python ints are `Nat`/`Int`; Python time values (seconds, possibly
  fractional) are `ℚ` (exact rational arithmetic; the source's float
  arithmetic is exact on the integer-second values the loop produces and on
  millisecond-exact values below the precision where doubles drift).
* The external world seen by one poll of the chunk directory (file
  existence, file size after the settle delay, the recognizer's output and
  whether it raises) is a function argument, so one Lean function models one
  deterministic pass of the Python loop body.
* Exceptions caught by the source are modelled by the corresponding branch
  of the Lean function; exceptions that the source never lets escape do not
  appear in result types.
-/

/- ### Python string primitives -/

/-- ASCII whitespace as recognized by Python's `str.strip()` / regex `\s`
(the texts handled by this program do not use the non-ASCII Unicode
whitespace code points). -/
def isPySpace (c : Char) : Bool :=
  c = ' ' || c = '\t' || c = '\n' || c = '\r' || c = '\x0b' || c = '\x0c'

/-- Python `str.strip()` on a list of characters: drop whitespace from both
ends. -/
def pyStripList (l : List Char) : List Char :=
  ((l.dropWhile isPySpace).reverse.dropWhile isPySpace).reverse

/-- Python `str.strip()`. -/
def pyStrip (s : String) : String := ⟨pyStripList s.data⟩

/-- The decimal digit character for `n < 10`. -/
def digitChar (n : Nat) : Char := Char.ofNat (48 + n)

/-- Digits of `n` in order, most significant first (empty for `0`);
fuel-driven so that it reduces definitionally. -/
def natCharsAux : Nat → Nat → List Char
  | 0, _ => []
  | fuel + 1, n =>
    if n = 0 then [] else natCharsAux fuel (n / 10) ++ [digitChar (n % 10)]

/-- Decimal representation of a natural number, as Python's `str`. -/
def natChars (n : Nat) : List Char := if n = 0 then ['0'] else natCharsAux n n

/-- Python `str(n)` for a natural number. -/
def natStr (n : Nat) : String := ⟨natChars n⟩

/-- Python `f"{n:02d}"` for `n : Nat`. -/
def pad2 (n : Nat) : String := if n < 10 then ⟨'0' :: natChars n⟩ else natStr n

/-- Python `f"{n:03d}"` for `n : Nat`. -/
def pad3 (n : Nat) : String :=
  if n < 10 then ⟨'0' :: '0' :: natChars n⟩
  else if n < 100 then ⟨'0' :: natChars n⟩
  else natStr n

/-- Python `a % b` on numbers, for `b > 0`: `a - b * (a // b)`. -/
def qmod (a b : ℚ) : ℚ := a - b * (⌊a / b⌋ : ℤ)

/-- `format_srt_time` (vlc_speech2text.py lines 177-183): converts seconds
to `HH:MM:SS,mmm`.  Mirrors
`hours = int(seconds // 3600); minutes = int((seconds % 3600) // 60);
secs = int(seconds % 60); millis = int((seconds % 1) * 1000)` followed by
`f"{hours:02d}:{minutes:02d}:{secs:02d},{millis:03d}"`.  (`int()` equals
`Int.toNat ∘ Int.floor` on the non-negative values the program produces.) -/
def format_srt_time (seconds : ℚ) : String :=
  let hours := (⌊seconds / 3600⌋).toNat
  let minutes := (⌊qmod seconds 3600 / 60⌋).toNat
  let secs := (⌊qmod seconds 60⌋).toNat
  let millis := (⌊qmod seconds 1 * 1000⌋).toNat
  pad2 hours ++ ":" ++ pad2 minutes ++ ":" ++ pad2 secs ++ "," ++ pad3 millis

/- ### Subtitle cues and the SRT writer -/

/-- One subtitle cue, the dict
`{'index': .., 'start': .., 'end': .., 'text': ..}` built at
web_app.py lines 380-385.  `endTime` is the dict's `'end'` key (`end` is a
reserved word in Lean). -/
structure Cue where
  index : Nat
  start : ℚ
  endTime : ℚ
  text : String
deriving DecidableEq, Repr

/-- One SRT block as written by web_app.py lines 392-394
(`f"{sub['index']}\n"`, `f"{fmt(start)} --> {fmt(end)}\n"`,
`f"{sub['text']}\n\n"`). -/
def cueBlock (c : Cue) : String :=
  natStr c.index ++ "\n" ++ format_srt_time c.start ++ " --> "
    ++ format_srt_time c.endTime ++ "\n" ++ c.text ++ "\n\n"

/-- Full SRT file content written by one flush (web_app.py lines 390-394:
the file is opened with mode `'w'` and fully rewritten from the ordered
in-memory list). -/
def srtContent : List Cue → String
  | [] => ""
  | c :: cs => cueBlock c ++ srtContent cs

/-- The initial SRT file content written by
`VideoTranscriptionSession._init_srt_file` (web_app.py lines 124-130). -/
def init_srt_content : String :=
  "1\n00:00:00,000 --> 00:00:01,000\nCaricamento sottotitoli...\n\n"

/- ### The SRT parser of `_monitor_whisper_srt`

web_app.py lines 496-525 parse the SRT file with
`re.findall(r'(\d+)\s+(\d{2}):(\d{2}):(\d{2}),(\d{3})\s+-->\s+'
            r'(\d{2}):(\d{2}):(\d{2}),(\d{3})\s+(.+?)(?=\n\d+\s+\d{2}:|\Z)',
            content, re.DOTALL)`
and turn every match into a cue with
`start = h*3600 + m*60 + s + ms/1000.0` and `text = match[9].strip()`.

The functions below implement that fixed regex directly on `List Char`.
The character classes of adjacent greedy pieces (`\d+` then `\s+`,
`\s+` then `\d{2}`) are disjoint, so greedy matching without backtracking
is exact; the lazy `(.+?)` is the shortest non-empty prefix after which the
lookahead `\n\d+\s+\d{2}:` matches or the input ends (`\Z`).  (If the
remainder after the final `\s+` is empty, Python would backtrack into the
`\s+`; that situation cannot arise on any file this program writes, whose
text payloads are non-empty, and the model returns no match there.) -/

/-- Exactly two digit characters (`\d{2}`), returning their value. -/
def take2 : List Char → Option (Nat × List Char)
  | a :: b :: r =>
    if a.isDigit && b.isDigit then
      some (10 * (a.toNat - 48) + (b.toNat - 48), r)
    else none
  | _ => none

/-- Exactly three digit characters (`\d{3}`), returning their value. -/
def take3 : List Char → Option (Nat × List Char)
  | a :: b :: c :: r =>
    if a.isDigit && b.isDigit && c.isDigit then
      some (100 * (a.toNat - 48) + 10 * (b.toNat - 48) + (c.toNat - 48), r)
    else none
  | _ => none

/-- One literal character. -/
def takeLit (c : Char) : List Char → Option (List Char)
  | x :: r => if x = c then some r else none
  | _ => none

/-- Value of a non-empty run of digit characters (`int(match[0])`). -/
def digitsVal (ds : List Char) : Nat :=
  ds.foldl (fun a c => 10 * a + (c.toNat - 48)) 0

/-- The timing groups `(\d{2}):(\d{2}):(\d{2}),(\d{3})`. -/
def matchTimestamp (l : List Char) : Option ((Nat × Nat × Nat × Nat) × List Char) :=
  (take2 l).bind fun p1 =>
  (takeLit ':' p1.2).bind fun r2 =>
  (take2 r2).bind fun p2 =>
  (takeLit ':' p2.2).bind fun r4 =>
  (take2 r4).bind fun p3 =>
  (takeLit ',' p3.2).bind fun r6 =>
  (take3 r6).bind fun p4 =>
  some ((p1.1, p2.1, p3.1, p4.1), p4.2)

/-- The lookahead `(?=\n\d+\s+\d{2}:|\Z)` tested at a suffix of the input
(`\Z` holds exactly at the end of the input). -/
def lookaheadCue : List Char → Bool
  | [] => true
  | c :: r =>
    if c = '\n' then
      let ds := r.takeWhile Char.isDigit
      let r1 := r.dropWhile Char.isDigit
      if ds.isEmpty then false
      else
        let sp := r1.takeWhile isPySpace
        let r2 := r1.dropWhile isPySpace
        if sp.isEmpty then false
        else
          match r2 with
          | a :: b :: c2 :: _ => a.isDigit && b.isDigit && c2 = ':'
          | _ => false
    else false

/-- Lazy `(.+?)` up to the first position where `lookaheadCue` holds:
`acc` is the (non-empty) text captured so far. -/
def lazyTextGo (acc : List Char) : List Char → Option (List Char × List Char)
  | [] => some (acc, [])
  | c :: r =>
    if lookaheadCue (c :: r) then some (acc, c :: r)
    else lazyTextGo (acc ++ [c]) r

/-- `(.+?)(?=\n\d+\s+\d{2}:|\Z)`: at least one character, lazily extended. -/
def lazyText : List Char → Option (List Char × List Char)
  | [] => none
  | c :: r => lazyTextGo [c] r

/-- Attempt to match the whole cue pattern anchored at the head of `l`,
returning the parsed cue (with the source's `start`/`end` formulas and
`strip()`ed text) and the unconsumed suffix. -/
def matchAt (l : List Char) : Option (Cue × List Char) :=
  let ds := l.takeWhile Char.isDigit
  let r0 := l.dropWhile Char.isDigit
  if ds.isEmpty then none
  else if (r0.takeWhile isPySpace).isEmpty then none
  else
    (matchTimestamp (r0.dropWhile isPySpace)).bind fun t1 =>
    if (t1.2.takeWhile isPySpace).isEmpty then none
    else
      (takeLit '-' (t1.2.dropWhile isPySpace)).bind fun r3 =>
      (takeLit '-' r3).bind fun r4 =>
      (takeLit '>' r4).bind fun r5 =>
      if (r5.takeWhile isPySpace).isEmpty then none
      else
        (matchTimestamp (r5.dropWhile isPySpace)).bind fun t2 =>
        if (t2.2.takeWhile isPySpace).isEmpty then none
        else
          (lazyText (t2.2.dropWhile isPySpace)).bind fun tx =>
          some ({ index := digitsVal ds,
                  start := (t1.1.1 : ℚ) * 3600 + (t1.1.2.1 : ℚ) * 60 + (t1.1.2.2.1 : ℚ)
                             + (t1.1.2.2.2 : ℚ) / 1000,
                  endTime := (t2.1.1 : ℚ) * 3600 + (t2.1.2.1 : ℚ) * 60 + (t2.1.2.2.1 : ℚ)
                             + (t2.1.2.2.2 : ℚ) / 1000,
                  text := pyStrip ⟨tx.1⟩ }, tx.2)

/-- `re.findall`: scan left to right, at each position try the pattern; on
success record the groups and continue after the match.  `fuel` bounds the
number of scan steps (each step consumes at least one character, so an
initial fuel of the input length suffices). -/
def findallSrt : Nat → List Char → List Cue
  | 0, _ => []
  | _ + 1, [] => []
  | fuel + 1, c :: rest =>
    match matchAt (c :: rest) with
    | some (cue, r) => cue :: findallSrt fuel r
    | none => findallSrt fuel rest

/-- The session's SRT parser (web_app.py lines 496-525): all regex matches
of the cue pattern, as cues. -/
def parseSrt (s : String) : List Cue := findallSrt s.data.length s.data

/- ### The chunk-discovery / transcription loop

`VideoTranscriptionSession._process_audio` (web_app.py lines 312-471) and
the analogous loop of `launch_vlc_with_subtitles`
(vlc_speech2text.py lines ~505-600) repeatedly scan the next 10 chunk
indices after `chunk_counter`; a chunk that exists and was not processed
yet is marked processed, its size is checked after a settle delay
(zero-size chunks are skipped by `continue`, which bypasses the
`chunk_counter = i + 1` advancement), then it is transcribed; a non-empty
`strip()`ed result is appended as a cue with
`start = i * chunk_duration`, `end = (i+1) * chunk_duration` and index
`subtitle_index`, and the whole SRT file is rewritten; on success the
chunk is deleted and `chunk_counter` becomes `i + 1`; an exception from
transcription is caught, leaving `chunk_counter` unchanged.

The filesystem/recognizer world of one poll is a function
`Nat → ChunkView`. -/

/-- What one poll observes about the chunk file of one index: whether
`os.path.exists` holds at discovery, its `os.path.getsize` after the settle
delay, the recognizer's raw result text, and whether the transcription call
raises. -/
structure ChunkView where
  present : Bool
  size : Nat
  text : String
  transcribeOk : Bool
deriving DecidableEq, Repr

/-- The mutable state of one `_process_audio` worker:
`chunk_counter`, the `processed_chunks` set (chunk file names are in
bijection with indices via `chunk_%04d.wav`), `subtitle_index`,
`all_subtitles`, plus two histories that record the loop's observable
actions: `transcribedLog` (chunk indices passed to `model.transcribe`, in
call order) and `flushes` (the full snapshot written to the SRT file by
each rewrite).  `restarts` records, for each encoder
terminate-and-relaunch, the cue count (web loop) or the restarting cue's
index (vlc loop). -/
structure LoopState where
  chunkCounter : Nat
  processed : List Nat
  subtitleIndex : Nat
  allSubtitles : List Cue
  transcribedLog : List Nat
  flushes : List (List Cue)
  restarts : List Nat
deriving DecidableEq, Repr

/-- Initial worker state (web_app.py lines 114-117 and 314-316). -/
def initLoopState : LoopState :=
  { chunkCounter := 0, processed := [], subtitleIndex := 1,
    allSubtitles := [], transcribedLog := [], flushes := [], restarts := [] }

/-- The body of the `for i in range(...)` loop of
`VideoTranscriptionSession._process_audio` (web_app.py lines 354-453) for
one index `i`.  `useHls` is `self.use_hls_stream`; with a non-HLS sink the
encoder is terminated and relaunched after every appended cue
(lines 402-432), with HLS it is never relaunched (lines 433-440). -/
def inspectChunk (useHls : Bool) (d : Nat) (v : ChunkView) (s : LoopState)
    (i : Nat) : LoopState :=
  if v.present && !(s.processed.contains i) then
    let s1 := { s with processed := i :: s.processed }
    if v.size = 0 then s1
    else
      let s2 := { s1 with transcribedLog := s1.transcribedLog ++ [i] }
      if v.transcribeOk then
        let text := pyStrip v.text
        let s3 :=
          if text = "" then s2
          else
            let cue : Cue := { index := s2.subtitleIndex, start := ((i * d : ℕ) : ℚ),
                               endTime := (((i + 1) * d : ℕ) : ℚ), text := text }
            let subs := s2.allSubtitles ++ [cue]
            let s' := { s2 with allSubtitles := subs, flushes := s2.flushes ++ [subs] }
            let s'' := if useHls then s'
                       else { s' with restarts := s'.restarts ++ [subs.length] }
            { s'' with subtitleIndex := s''.subtitleIndex + 1 }
        { s3 with chunkCounter := i + 1 }
      else s2
  else s

/-- One poll cycle: `for i in range(self.chunk_counter, self.chunk_counter + 10)`
(the range is computed once, from the counter at loop entry). -/
def pollChunks (useHls : Bool) (d : Nat) (view : Nat → ChunkView)
    (s : LoopState) : LoopState :=
  (List.range' s.chunkCounter 10).foldl (fun t i => inspectChunk useHls d (view i) t i) s

/-- `n` iterations of the worker's `while self.running and
(self.ffmpeg_audio_process.poll() is None or
self.ffmpeg_video_process.poll() is None)` loop (web_app.py lines 351-455):
the two flags are sampled at each cycle boundary only. -/
def runLoop (useHls : Bool) (d : Nat) (env : Nat → Nat → ChunkView)
    (running alive : Nat → Bool) : Nat → LoopState
  | 0 => initLoopState
  | n + 1 =>
    let s := runLoop useHls d env running alive n
    if running n && alive n then pollChunks useHls d (env n) s else s

/-- The body of the chunk loop of `launch_vlc_with_subtitles`
(vlc_speech2text.py lines 512-600): identical discovery, sizing and cue
construction, but the encoder is terminated and relaunched only when the
new cue's index satisfies `subtitle_index % 3 == 0` (line 562). -/
def vlcInspectChunk (d : Nat) (v : ChunkView) (s : LoopState) (i : Nat) : LoopState :=
  if v.present && !(s.processed.contains i) then
    let s1 := { s with processed := i :: s.processed }
    if v.size = 0 then s1
    else
      let s2 := { s1 with transcribedLog := s1.transcribedLog ++ [i] }
      if v.transcribeOk then
        let text := pyStrip v.text
        let s3 :=
          if text = "" then s2
          else
            let cue : Cue := { index := s2.subtitleIndex, start := ((i * d : ℕ) : ℚ),
                               endTime := (((i + 1) * d : ℕ) : ℚ), text := text }
            let subs := s2.allSubtitles ++ [cue]
            let s' := { s2 with allSubtitles := subs, flushes := s2.flushes ++ [subs] }
            let s'' := if s'.subtitleIndex % 3 == 0
                       then { s' with restarts := s'.restarts ++ [s'.subtitleIndex] }
                       else s'
            { s'' with subtitleIndex := s''.subtitleIndex + 1 }
        { s3 with chunkCounter := i + 1 }
      else s2
  else s

/-- One poll cycle of the vlc loop (vlc_speech2text.py line 513). -/
def vlcPollChunks (d : Nat) (view : Nat → ChunkView) (s : LoopState) : LoopState :=
  (List.range' s.chunkCounter 10).foldl (fun t i => vlcInspectChunk d (view i) t i) s

/-- `n` iterations of the vlc loop's
`while player_process.poll() is None or ffmpeg_process.poll() is None`
(vlc_speech2text.py line 511); `cont` samples that condition. -/
def vlcRunLoop (d : Nat) (env : Nat → Nat → ChunkView) (cont : Nat → Bool) :
    Nat → LoopState
  | 0 => initLoopState
  | n + 1 =>
    let s := vlcRunLoop d env cont n
    if cont n then vlcPollChunks d (env n) s else s

/-- `/api/status` (web_app.py line 1006): the status response carries
`session.all_subtitles[-10:] if session.all_subtitles else []`. -/
def statusSubtitles (subs : List Cue) : List Cue :=
  if subs.isEmpty then [] else subs.drop (subs.length - 10)

/- ### Session start verification and teardown -/

/-- The externally visible outcome of `start()`: `self.status`,
`self.error`, and the boolean `start()` returns. -/
structure StartOutcome where
  status : String
  error : Option String
  startReturn : Bool
deriving DecidableEq, Repr

/-- The tail of `VideoTranscriptionSession.start` (web_app.py lines
249-304): `status` is set to `"running"` (line 250) before the encoder is
launched; a launch exception sets `status = "error"` and is re-raised into
the outer handler (lines 148-152, 306-310); otherwise, after `time.sleep(3)`
the premature-exit check at lines 299-302 only prints the diagnostic:
`status`/`error` are not modified and `start` returns `True` regardless of
`exitedEarly`. -/
def webStart (launchRaises : Bool) (launchErr : String) (exitedEarly : Bool) :
    StartOutcome :=
  if launchRaises then
    { status := "error", error := some launchErr, startReturn := false }
  else
    { status := "running", error := none, startReturn := true }

/-- The condition of the `_process_audio` worker loop
(web_app.py lines 351-352):
`self.running and (audio.poll() is None or video.poll() is None)`. -/
def processAudioWhileCond (running audioAlive videoAlive : Bool) : Bool :=
  running && (audioAlive || videoAlive)

/-- The encoder-verification step of `SimpleVideoSession.start`
(web_app_simple.py lines 278-343): after 3 seconds, if
`ffmpeg_process.poll()` is a (nonzero) exit code, the captured stderr tail
is truncated to 2000 characters, `self.error` is set to
`f"FFmpeg terminato (exit code: {exit_code}):\n{last_lines[:2000]}"`,
`self.status = "error"`, and the raised exception makes `start` return
`False`; otherwise the monitor thread starts and `status = "running"`. -/
def simpleStartVerify (exitCode : Option Int) (stderrTail : String) :
    StartOutcome :=
  match exitCode with
  | some code =>
    { status := "error",
      error := some ("FFmpeg terminato (exit code: " ++ toString code ++ "):\n"
                       ++ stderrTail.take 2000),
      startReturn := false }
  | none => { status := "running", error := none, startReturn := true }

/-- The per-session filesystem and process state relevant to teardown. -/
structure SessionFS where
  srt : Bool
  pipePathSet : Bool
  pipe : Bool
  hls : Bool
  chunkDir : Bool
  videoProc : Bool
  audioProc : Bool
  running : Bool
deriving DecidableEq, Repr

/-- Which best-effort deletions fail (each failure is caught by the
corresponding `try/except` / `ignore_errors=True` in the source). -/
structure CleanupEnv where
  srtUnlinkFails : Bool
  pipeUnlinkFails : Bool
  hlsRmFails : Bool
deriving DecidableEq, Repr

/-- `VideoTranscriptionSession.stop` (web_app.py lines 540-616): clears
`running`, closes and terminates both ffmpeg processes (every exception is
caught), and sets both handles to `None`. -/
def stopSession (fs : SessionFS) : SessionFS :=
  { fs with running := false, videoProc := false, audioProc := false }

/-- `VideoTranscriptionSession.cleanup` (web_app.py lines 618-647):
`stop()`, then best-effort deletion of the subtitle file, of the output
pipe/file (if its path was set), and of the HLS directory
(`shutil.rmtree(..., ignore_errors=True)`).  The worker's scratch chunk
directory is not touched here — it belongs to `_process_audio`'s own
`finally` block. -/
def cleanupSession (e : CleanupEnv) (fs : SessionFS) : SessionFS :=
  let fs1 := stopSession fs
  let fs2 := { fs1 with srt := if fs1.srt && !e.srtUnlinkFails then false else fs1.srt }
  let fs3 := { fs2 with
    pipe := if fs2.pipePathSet && fs2.pipe && !e.pipeUnlinkFails then false else fs2.pipe }
  { fs3 with hls := if fs3.hls && !e.hlsRmFails then false else fs3.hls }

/-- The `finally` block of `_process_audio` (web_app.py lines 461-471),
run when the worker thread exits: best-effort removal of the scratch chunk
directory (failures are swallowed). -/
def workerFinally (rmFails : Bool) (fs : SessionFS) : SessionFS :=
  { fs with chunkDir := if fs.chunkDir && !rmFails then false else fs.chunkDir }

/- ### Helper lemmas: spans, digits, stripping -/

theorem takeWhile_all_append (p : Char → Bool) (xs ys : List Char)
    (h1 : ∀ c ∈ xs, p c = true)
    (h2 : ∀ y, ys.head? = some y → p y = false) :
    (xs ++ ys).takeWhile p = xs := by
  induction xs with
  | nil =>
    cases ys with
    | nil => rfl
    | cons y ys' => simp [List.takeWhile_cons, h2 y rfl]
  | cons x xs ih =>
    have hx : p x = true := h1 x (by simp)
    simp only [List.cons_append, List.takeWhile_cons, hx, if_true]
    simp only [List.cons.injEq, true_and]
    exact ih (fun c hc => h1 c (by simp [hc]))

theorem dropWhile_all_append (p : Char → Bool) (xs ys : List Char)
    (h1 : ∀ c ∈ xs, p c = true)
    (h2 : ∀ y, ys.head? = some y → p y = false) :
    (xs ++ ys).dropWhile p = ys := by
  induction xs with
  | nil =>
    cases ys with
    | nil => rfl
    | cons y ys' => simp [List.dropWhile_cons, h2 y rfl]
  | cons x xs ih =>
    have hx : p x = true := h1 x (by simp)
    simp only [List.cons_append, List.dropWhile_cons, hx, if_true]
    exact ih (fun c hc => h1 c (by simp [hc]))

theorem dropWhile_head_false (p : Char → Bool) (l : List Char)
    (h : ∀ y, l.head? = some y → p y = false) : l.dropWhile p = l := by
  cases l with
  | nil => rfl
  | cons x xs => simp [List.dropWhile_cons, h x rfl]

theorem takeWhile_head_false_isEmpty (p : Char → Bool) (x : Char) (xs : List Char)
    (h : p x = false) : ((x :: xs).takeWhile p).isEmpty = true := by
  simp [List.takeWhile_cons, h]

/-- A digit character is not whitespace. -/
theorem isDigit_not_pySpace (c : Char) (h : c.isDigit = true) :
    isPySpace c = false := by
  have hne : ∀ d : Char, d.isDigit = false → c ≠ d := by
    intro d hd he
    rw [he, hd] at h
    exact Bool.false_ne_true h
  simp only [isPySpace, Bool.or_eq_false_iff, decide_eq_false_iff_not]
  exact ⟨⟨⟨⟨⟨hne ' ' (by decide), hne '\t' (by decide)⟩, hne '\n' (by decide)⟩,
    hne '\r' (by decide)⟩, hne '\x0b' (by decide)⟩, hne '\x0c' (by decide)⟩

theorem digitChar_isDigit (n : Nat) (h : n < 10) : (digitChar n).isDigit = true := by
  interval_cases n <;> decide

theorem digitChar_toNat (n : Nat) (h : n < 10) : (digitChar n).toNat - 48 = n := by
  interval_cases n <;> decide

theorem natCharsAux_zero (fuel : Nat) : natCharsAux fuel 0 = [] := by
  cases fuel <;> simp [natCharsAux]

theorem natCharsAux_digits (fuel : Nat) :
    ∀ n, n ≤ fuel → ∀ c ∈ natCharsAux fuel n, c.isDigit = true := by
  induction fuel with
  | zero => intro n _ c hc; simp [natCharsAux] at hc
  | succ f ih =>
    intro n hn c hc
    by_cases h0 : n = 0
    · subst h0; simp [natCharsAux] at hc
    · simp only [natCharsAux, if_neg h0, List.mem_append, List.mem_singleton] at hc
      rcases hc with hc | hc
      · have hlt : n / 10 < n := Nat.div_lt_self (by omega) (by norm_num)
        exact ih (n / 10) (by omega) c hc
      · rw [hc]; exact digitChar_isDigit _ (Nat.mod_lt _ (by norm_num))

theorem digitsVal_append_one (l : List Char) (c : Char) :
    digitsVal (l ++ [c]) = 10 * digitsVal l + (c.toNat - 48) := by
  simp [digitsVal, List.foldl_append]

theorem natCharsAux_val (fuel : Nat) :
    ∀ n, n ≤ fuel → digitsVal (natCharsAux fuel n) = n := by
  induction fuel with
  | zero => intro n hn; interval_cases n; simp [natCharsAux, digitsVal]
  | succ f ih =>
    intro n hn
    by_cases h0 : n = 0
    · subst h0; simp [natCharsAux, digitsVal]
    · rw [natCharsAux, if_neg h0, digitsVal_append_one,
        ih (n / 10) (by omega), digitChar_toNat _ (Nat.mod_lt _ (by norm_num))]
      omega

theorem natChars_ne_nil (n : Nat) : natChars n ≠ [] := by
  unfold natChars
  by_cases h0 : n = 0
  · simp [h0]
  · rw [if_neg h0]
    cases n with
    | zero => exact absurd rfl h0
    | succ m =>
      rw [natCharsAux, if_neg h0]
      simp

theorem natChars_digits (n : Nat) : ∀ c ∈ natChars n, c.isDigit = true := by
  unfold natChars
  by_cases h0 : n = 0
  · intro c hc
    rw [if_pos h0] at hc
    simp only [List.mem_singleton] at hc
    subst hc
    decide
  · rw [if_neg h0]
    exact natCharsAux_digits n n le_rfl

theorem natChars_val (n : Nat) : digitsVal (natChars n) = n := by
  unfold natChars
  by_cases h0 : n = 0
  · rw [if_pos h0, h0]; decide
  · rw [if_neg h0]; exact natCharsAux_val n n le_rfl

theorem natCharsAux_single (fuel m : Nat) (h1 : 1 ≤ m) (h2 : m < 10)
    (h3 : m ≤ fuel) : natCharsAux fuel m = [digitChar m] := by
  cases fuel with
  | zero => omega
  | succ f =>
    rw [natCharsAux, if_neg (by omega)]
    rw [Nat.div_eq_of_lt h2, natCharsAux_zero, Nat.mod_eq_of_lt h2]
    rfl

theorem natCharsAux_double (fuel m : Nat) (h1 : 10 ≤ m) (h2 : m < 100)
    (h3 : m ≤ fuel) :
    natCharsAux fuel m = [digitChar (m / 10), digitChar (m % 10)] := by
  cases fuel with
  | zero => omega
  | succ f =>
    rw [natCharsAux, if_neg (by omega)]
    rw [natCharsAux_single f (m / 10) (by omega) (by omega) (by omega)]
    rfl

theorem natCharsAux_triple (fuel m : Nat) (h1 : 100 ≤ m) (h2 : m < 1000)
    (h3 : m ≤ fuel) :
    natCharsAux fuel m
      = [digitChar (m / 100), digitChar (m / 10 % 10), digitChar (m % 10)] := by
  cases fuel with
  | zero => omega
  | succ f =>
    rw [natCharsAux, if_neg (by omega)]
    rw [natCharsAux_double f (m / 10) (by omega) (by omega) (by omega)]
    have e1 : m / 10 / 10 = m / 100 := by omega
    rw [e1]
    rfl

theorem natChars_single (n : Nat) (h : n < 10) : natChars n = [digitChar n] := by
  by_cases h0 : n = 0
  · subst h0; rw [natChars]; decide
  · unfold natChars
    rw [if_neg h0]
    exact natCharsAux_single n n (by omega) h le_rfl

theorem natChars_double (n : Nat) (h1 : 10 ≤ n) (h2 : n < 100) :
    natChars n = [digitChar (n / 10), digitChar (n % 10)] := by
  unfold natChars
  rw [if_neg (by omega)]
  exact natCharsAux_double n n h1 h2 le_rfl

/-- `\d{2}` on the output of `pad2 n ++ rest` recovers `n < 100`. -/
theorem take2_pad2 (n : Nat) (h : n < 100) (rest : List Char) :
    take2 ((pad2 n).data ++ rest) = some (n, rest) := by
  by_cases h10 : n < 10
  · have hd : (pad2 n).data = '0' :: natChars n := by simp [pad2, if_pos h10]
    rw [hd, natChars_single n h10]
    simp only [List.cons_append, List.nil_append, take2]
    rw [if_pos (by simp [digitChar_isDigit n h10])]
    rw [digitChar_toNat n h10]
    have hz : '0'.toNat - 48 = 0 := by decide
    rw [hz]
    simp
  · have hd : (pad2 n).data = natChars n := by simp [pad2, if_neg h10, natStr]
    rw [hd, natChars_double n (by omega) h]
    simp only [List.cons_append, List.nil_append, take2]
    rw [if_pos (by simp [digitChar_isDigit (n / 10) (by omega),
      digitChar_isDigit (n % 10) (Nat.mod_lt _ (by norm_num))])]
    rw [digitChar_toNat (n / 10) (by omega),
      digitChar_toNat (n % 10) (Nat.mod_lt _ (by norm_num))]
    have e : 10 * (n / 10) + n % 10 = n := by omega
    rw [e]

/-- `\d{3}` on the output of `pad3 n ++ rest` recovers `n < 1000`. -/
theorem take3_pad3 (n : Nat) (h : n < 1000) (rest : List Char) :
    take3 ((pad3 n).data ++ rest) = some (n, rest) := by
  have hz : '0'.toNat - 48 = 0 := by decide
  by_cases h10 : n < 10
  · have hd : (pad3 n).data = '0' :: '0' :: natChars n := by simp [pad3, if_pos h10]
    rw [hd, natChars_single n h10]
    simp only [List.cons_append, List.nil_append, take3]
    rw [if_pos (by simp [digitChar_isDigit n h10])]
    rw [digitChar_toNat n h10, hz]
    simp
  · by_cases h100 : n < 100
    · have hd : (pad3 n).data = '0' :: natChars n := by
        simp [pad3, if_neg h10, if_pos h100]
      rw [hd, natChars_double n (by omega) h100]
      simp only [List.cons_append, List.nil_append, take3]
      rw [if_pos (by simp [digitChar_isDigit (n / 10) (by omega),
        digitChar_isDigit (n % 10) (Nat.mod_lt _ (by norm_num))])]
      rw [digitChar_toNat (n / 10) (by omega),
        digitChar_toNat (n % 10) (Nat.mod_lt _ (by norm_num)), hz]
      have e : 100 * 0 + 10 * (n / 10) + n % 10 = n := by omega
      rw [e]
    · have hd : (pad3 n).data = natChars n := by
        simp [pad3, if_neg h10, if_neg h100, natStr]
      have h3 : natChars n
          = [digitChar (n / 100), digitChar (n / 10 % 10), digitChar (n % 10)] := by
        unfold natChars
        rw [if_neg (by omega)]
        exact natCharsAux_triple n n (by omega) h le_rfl
      rw [hd, h3]
      simp only [List.cons_append, List.nil_append, take3]
      rw [if_pos (by simp [digitChar_isDigit (n / 100) (by omega),
        digitChar_isDigit (n / 10 % 10) (Nat.mod_lt _ (by norm_num)),
        digitChar_isDigit (n % 10) (Nat.mod_lt _ (by norm_num))])]
      rw [digitChar_toNat (n / 100) (by omega),
        digitChar_toNat (n / 10 % 10) (Nat.mod_lt _ (by norm_num)),
        digitChar_toNat (n % 10) (Nat.mod_lt _ (by norm_num))]
      have e : 100 * (n / 100) + 10 * (n / 10 % 10) + n % 10 = n := by omega
      rw [e]

theorem dropWhile_all_front (p : Char → Bool) (xs ys : List Char)
    (h : ∀ c ∈ xs, p c = true) :
    (xs ++ ys).dropWhile p = ys.dropWhile p := by
  induction xs with
  | nil => rfl
  | cons x xs ih =>
    have hx : p x = true := h x (by simp)
    simp only [List.cons_append, List.dropWhile_cons, hx, if_true]
    exact ih (fun c hc => h c (by simp [hc]))

/-- Appending whitespace to a string whose head is not whitespace does not
change its `strip()`. -/
theorem pyStripList_append_spaces (td s : List Char)
    (hhead : ∀ y, td.head? = some y → isPySpace y = false)
    (hs : ∀ c ∈ s, isPySpace c = true) :
    pyStripList (td ++ s) = pyStripList td := by
  cases td with
  | nil =>
    simp only [List.nil_append]
    unfold pyStripList
    rw [List.dropWhile_eq_nil_iff.mpr (fun x hx => hs x hx)]
    rfl
  | cons t ts =>
    unfold pyStripList
    rw [dropWhile_head_false isPySpace ((t :: ts) ++ s)
      (by intro y hy
          simp only [List.cons_append, List.head?_cons, Option.some.injEq] at hy
          exact hy ▸ hhead t rfl),
      dropWhile_head_false isPySpace (t :: ts) hhead]
    rw [List.reverse_append]
    rw [dropWhile_all_front isPySpace s.reverse (t :: ts).reverse
      (fun c hc => hs c (List.mem_reverse.mp hc))]

/-- `strip()` of a string with non-whitespace head and last character is the
string itself. -/
theorem pyStripList_clean (td : List Char)
    (hhead : ∀ y, td.head? = some y → isPySpace y = false)
    (hlast : ∀ y, td.getLast? = some y → isPySpace y = false) :
    pyStripList td = td := by
  unfold pyStripList
  rw [dropWhile_head_false isPySpace td hhead]
  rw [dropWhile_head_false isPySpace td.reverse
    (by intro y hy; rw [List.head?_reverse] at hy; exact hlast y hy)]
  exact List.reverse_reverse td

/- ### Floor arithmetic for `format_srt_time` -/

theorem floor_nat_div (a b : Nat) (hb : 0 < b) :
    ⌊(a : ℚ) / (b : ℚ)⌋ = ((a / b : ℕ) : ℤ) := by
  have hbq : (0 : ℚ) < (b : ℚ) := by exact_mod_cast hb
  rw [Int.floor_eq_iff]
  constructor
  · rw [le_div_iff hbq]
    have : (a / b) * b ≤ a := Nat.div_mul_le_self a b
    exact_mod_cast this
  · rw [div_lt_iff hbq]
    have hlt : a < (a / b + 1) * b := by
      conv_lhs => rw [← Nat.div_add_mod a b]
      calc b * (a / b) + a % b < b * (a / b) + b :=
            Nat.add_lt_add_left (Nat.mod_lt a hb) _
        _ = (a / b + 1) * b := by ring
    exact_mod_cast hlt

/-- `qmod` of a millisecond-exact value by a whole number of seconds. -/
theorem qmod_ms (ms bs : Nat) (hb : 0 < bs) :
    qmod ((ms : ℚ) / 1000) (bs : ℚ) = ((ms % (1000 * bs) : ℕ) : ℚ) / 1000 := by
  have hfloor : ⌊(ms : ℚ) / 1000 / (bs : ℚ)⌋ = ((ms / (1000 * bs) : ℕ) : ℤ) := by
    rw [div_div]
    have : (1000 : ℚ) * (bs : ℚ) = ((1000 * bs : ℕ) : ℚ) := by push_cast; ring
    rw [this]
    exact floor_nat_div ms (1000 * bs) (by positivity)
  unfold qmod
  rw [hfloor, Int.cast_natCast]
  have key : ((ms % (1000 * bs) : ℕ) : ℚ)
      + ((1000 * bs : ℕ) : ℚ) * ((ms / (1000 * bs) : ℕ) : ℚ) = (ms : ℚ) := by
    exact_mod_cast Nat.mod_add_div ms (1000 * bs)
  have hb' : ((1000 * bs : ℕ) : ℚ) = 1000 * (bs : ℚ) := by push_cast; ring
  rw [hb'] at key
  linarith

/-- `format_srt_time` on a millisecond-exact value, expressed purely over
naturals. -/
theorem format_srt_time_ms (ms : Nat) :
    format_srt_time ((ms : ℚ) / 1000)
      = pad2 (ms / 3600000) ++ ":" ++ pad2 (ms % 3600000 / 60000) ++ ":"
        ++ pad2 (ms % 60000 / 1000) ++ "," ++ pad3 (ms % 1000) := by
  have hhours : ⌊(ms : ℚ) / 1000 / 3600⌋ = ((ms / 3600000 : ℕ) : ℤ) := by
    rw [div_div]
    have e : (1000 : ℚ) * 3600 = ((3600000 : ℕ) : ℚ) := by norm_num
    rw [e]
    exact floor_nat_div ms 3600000 (by norm_num)
  have hq3600 : qmod ((ms : ℚ) / 1000) 3600 = ((ms % 3600000 : ℕ) : ℚ) / 1000 := by
    have := qmod_ms ms 3600 (by norm_num)
    norm_num at this ⊢
    convert this using 3
  have hq60 : qmod ((ms : ℚ) / 1000) 60 = ((ms % 60000 : ℕ) : ℚ) / 1000 := by
    have := qmod_ms ms 60 (by norm_num)
    norm_num at this ⊢
    convert this using 3
  have hq1 : qmod ((ms : ℚ) / 1000) 1 = ((ms % 1000 : ℕ) : ℚ) / 1000 := by
    have := qmod_ms ms 1 (by norm_num)
    norm_num at this ⊢
    convert this using 3
  have hmins : ⌊((ms % 3600000 : ℕ) : ℚ) / 1000 / 60⌋
      = ((ms % 3600000 / 60000 : ℕ) : ℤ) := by
    rw [div_div]
    have e : (1000 : ℚ) * 60 = ((60000 : ℕ) : ℚ) := by norm_num
    rw [e]
    exact floor_nat_div (ms % 3600000) 60000 (by norm_num)
  have hsecs : ⌊((ms % 60000 : ℕ) : ℚ) / 1000⌋ = ((ms % 60000 / 1000 : ℕ) : ℤ) := by
    have e : (1000 : ℚ) = ((1000 : ℕ) : ℚ) := by norm_num
    rw [e]
    exact floor_nat_div (ms % 60000) 1000 (by norm_num)
  have hmillis : ⌊((ms % 1000 : ℕ) : ℚ) / 1000 * 1000⌋ = ((ms % 1000 : ℕ) : ℤ) := by
    have e : ((ms % 1000 : ℕ) : ℚ) / 1000 * 1000 = ((ms % 1000 : ℕ) : ℚ) := by
      field_simp
    rw [e, Int.floor_natCast]
  simp only [format_srt_time, hq3600, hq60, hq1, hhours, hmins, hsecs, hmillis,
    Int.toNat_natCast]

/- ### Matching the writer's output -/

theorem pad2_shape (n : Nat) (h : n < 100) :
    ∃ a b, (pad2 n).data = [a, b] ∧ a.isDigit = true ∧ b.isDigit = true := by
  by_cases h10 : n < 10
  · refine ⟨'0', digitChar n, ?_, by decide, digitChar_isDigit n h10⟩
    simp [pad2, if_pos h10, natChars_single n h10]
  · refine ⟨digitChar (n / 10), digitChar (n % 10), ?_,
      digitChar_isDigit _ (by omega), digitChar_isDigit _ (Nat.mod_lt _ (by norm_num))⟩
    simp [pad2, if_neg h10, natStr, natChars_double n (by omega) h]

theorem string_data_append (a b : String) : (a ++ b).data = a.data ++ b.data := rfl

theorem takeLit_cons (c : Char) (r : List Char) : takeLit c (c :: r) = some r := by
  simp [takeLit]

/-- The character layout of a formatted timestamp. -/
theorem format_srt_time_data (ms : Nat) :
    (format_srt_time ((ms : ℚ) / 1000)).data
      = (pad2 (ms / 3600000)).data ++ ':' :: ((pad2 (ms % 3600000 / 60000)).data
          ++ ':' :: ((pad2 (ms % 60000 / 1000)).data ++ ',' :: (pad3 (ms % 1000)).data)) := by
  rw [format_srt_time_ms]
  simp only [string_data_append]
  simp [List.append_assoc]

/-- The regex timing groups over a formatted timestamp recover the four
components. -/
theorem matchTimestamp_format (ms : Nat) (h : ms < 360000000) (rest : List Char) :
    matchTimestamp ((format_srt_time ((ms : ℚ) / 1000)).data ++ rest)
      = some ((ms / 3600000, ms % 3600000 / 60000, ms % 60000 / 1000, ms % 1000), rest) := by
  rw [format_srt_time_data]
  unfold matchTimestamp
  simp only [List.append_assoc, List.cons_append]
  rw [take2_pad2 _ (by omega)]
  simp only [Option.some_bind]
  rw [takeLit_cons]
  simp only [Option.some_bind]
  rw [take2_pad2 _ (by omega)]
  simp only [Option.some_bind]
  rw [takeLit_cons]
  simp only [Option.some_bind]
  rw [take2_pad2 _ (by omega)]
  simp only [Option.some_bind]
  rw [takeLit_cons]
  simp only [Option.some_bind]
  rw [take3_pad3 _ (by omega)]
  simp only [Option.some_bind]

/-- The parser's time formula inverts the writer's on millisecond-exact
values. -/
theorem time_value (ms : Nat) :
    ((ms / 3600000 : ℕ) : ℚ) * 3600 + ((ms % 3600000 / 60000 : ℕ) : ℚ) * 60
      + ((ms % 60000 / 1000 : ℕ) : ℚ) + ((ms % 1000 : ℕ) : ℚ) / 1000
      = (ms : ℚ) / 1000 := by
  have key : (ms / 3600000) * 3600000 + (ms % 3600000 / 60000) * 60000
      + (ms % 60000 / 1000) * 1000 + ms % 1000 = ms := by omega
  have keyq := congrArg (fun k : ℕ => (k : ℚ)) key
  push_cast at keyq
  linarith

theorem lookaheadCue_cons_false (c : Char) (r : List Char) (h : ¬c = '\n') :
    lookaheadCue (c :: r) = false := by
  simp [lookaheadCue, h]

theorem lazyTextGo_append (pre : List Char) :
    ∀ (acc tail : List Char), (∀ ch ∈ pre, ¬ch = '\n') →
      lazyTextGo acc (pre ++ tail) = lazyTextGo (acc ++ pre) tail := by
  induction pre with
  | nil => intro acc tail _; simp
  | cons c p ih =>
    intro acc tail hpre
    have hc : ¬c = '\n' := hpre c (by simp)
    simp only [List.cons_append, lazyTextGo, lookaheadCue_cons_false c _ hc,
      Bool.false_eq_true, if_false]
    have hrec := ih (acc ++ [c]) tail (fun ch hch => hpre ch (by simp [hch]))
    simpa [List.append_assoc] using hrec

theorem isEmpty_false_of_ne_nil {l : List Char} (h : l ≠ []) : l.isEmpty = false := by
  cases l with
  | nil => exact absurd rfl h
  | cons a as => rfl

/-- Splitting `\s+` at a single whitespace character followed by
non-whitespace. -/
theorem spaces_one (sp : Char) (hsp : isPySpace sp = true) (X : List Char)
    (hX : ∀ y, X.head? = some y → isPySpace y = false) :
    (sp :: X).takeWhile isPySpace = [sp]
      ∧ (sp :: X).dropWhile isPySpace = X := by
  constructor
  · rw [List.takeWhile_cons_of_pos hsp]
    cases X with
    | nil => rfl
    | cons a as => rw [List.takeWhile_cons_of_neg (by simp [hX a rfl])]
  · rw [List.dropWhile_cons_of_pos hsp]
    exact dropWhile_head_false _ X hX

theorem head_not_space_append (l1 l2 : List Char)
    (h : ∀ y, l1.head? = some y → isPySpace y = false) (hne : l1 ≠ []) :
    ∀ y, (l1 ++ l2).head? = some y → isPySpace y = false := by
  cases l1 with
  | nil => exact absurd rfl hne
  | cons a as =>
    intro y hy
    simp only [List.cons_append, List.head?_cons, Option.some.injEq] at hy
    rw [← hy]
    exact h a rfl

/-- The head character of a formatted timestamp is a digit. -/
theorem format_srt_time_head (ms : Nat) (hb : ms / 3600000 < 100) :
    ∀ y, ((format_srt_time ((ms : ℚ) / 1000)).data).head? = some y →
      isPySpace y = false := by
  intro y hy
  obtain ⟨a, b, hab, ha, _⟩ := pad2_shape (ms / 3600000) hb
  rw [format_srt_time_data, hab] at hy
  simp only [List.cons_append, List.head?_cons, Option.some.injEq] at hy
  rw [← hy]
  exact isDigit_not_pySpace a ha

/-- Right-nested character layout of one written SRT block. -/
theorem cueBlock_data (c : Cue) :
    (cueBlock c).data = natChars c.index ++ '\n' :: ((format_srt_time c.start).data
      ++ ' ' :: '-' :: '-' :: '>' :: ' ' :: ((format_srt_time c.endTime).data
      ++ '\n' :: (c.text.data ++ '\n' :: '\n' :: []))) := by
  unfold cueBlock natStr
  simp only [string_data_append]
  simp [List.append_assoc]

theorem format_srt_time_ne_nil (ms : Nat) (hb : ms / 3600000 < 100) :
    (format_srt_time ((ms : ℚ) / 1000)).data ≠ [] := by
  obtain ⟨a, b, hab, _, _⟩ := pad2_shape (ms / 3600000) hb
  rw [format_srt_time_data, hab]
  simp

/-- Matching one written block reduces to the lazy text capture: the index
and both timestamps are recovered exactly. -/
theorem matchAt_structure (idx ms1 ms2 : Nat) (hb1 : ms1 < 360000000)
    (hb2 : ms2 < 360000000) (td : List Char) (htne : td ≠ [])
    (hthead : ∀ y, td.head? = some y → isPySpace y = false)
    (tail : List Char) :
    matchAt (natChars idx ++ '\n'
        :: ((format_srt_time ((ms1 : ℚ) / 1000)).data
          ++ ' ' :: '-' :: '-' :: '>' :: ' '
          :: ((format_srt_time ((ms2 : ℚ) / 1000)).data
            ++ '\n' :: (td ++ '\n' :: '\n' :: tail))))
      = (lazyText (td ++ '\n' :: '\n' :: tail)).bind fun tx =>
          some ({ index := idx, start := (ms1 : ℚ) / 1000,
                  endTime := (ms2 : ℚ) / 1000, text := pyStrip ⟨tx.1⟩ }, tx.2) := by
  have hT : ∀ y, (td ++ '\n' :: '\n' :: tail).head? = some y → isPySpace y = false :=
    head_not_space_append td _ hthead htne
  have hR2 : ∀ y, ((format_srt_time ((ms2 : ℚ) / 1000)).data
      ++ '\n' :: (td ++ '\n' :: '\n' :: tail)).head? = some y → isPySpace y = false :=
    head_not_space_append _ _ (format_srt_time_head ms2 (by omega))
      (format_srt_time_ne_nil ms2 (by omega))
  have hR1 : ∀ y, ((format_srt_time ((ms1 : ℚ) / 1000)).data
      ++ ' ' :: '-' :: '-' :: '>' :: ' '
      :: ((format_srt_time ((ms2 : ℚ) / 1000)).data
        ++ '\n' :: (td ++ '\n' :: '\n' :: tail))).head? = some y
      → isPySpace y = false :=
    head_not_space_append _ _ (format_srt_time_head ms1 (by omega))
      (format_srt_time_ne_nil ms1 (by omega))
  simp only [matchAt]
  rw [takeWhile_all_append Char.isDigit (natChars idx) _
      (natChars_digits idx) (by intro y hy; simp at hy; rw [← hy]; decide),
    dropWhile_all_append Char.isDigit (natChars idx) _
      (natChars_digits idx) (by intro y hy; simp at hy; rw [← hy]; decide)]
  rw [isEmpty_false_of_ne_nil (natChars_ne_nil idx)]
  rw [(spaces_one '\n' (by decide) _ hR1).1, (spaces_one '\n' (by decide) _ hR1).2]
  rw [matchTimestamp_format ms1 hb1]
  simp only [Option.some_bind, Bool.false_eq_true, if_false]
  rw [List.takeWhile_cons_of_pos (show isPySpace ' ' = true by decide),
    List.takeWhile_cons_of_neg (show ¬isPySpace '-' = true by decide),
    List.dropWhile_cons_of_pos (show isPySpace ' ' = true by decide),
    List.dropWhile_cons_of_neg (show ¬isPySpace '-' = true by decide)]
  simp only [List.isEmpty_cons, Bool.false_eq_true, if_false]
  rw [takeLit_cons]
  simp only [Option.some_bind]
  rw [takeLit_cons]
  simp only [Option.some_bind]
  rw [takeLit_cons]
  simp only [Option.some_bind]
  rw [(spaces_one ' ' (by decide) _ hR2).1, (spaces_one ' ' (by decide) _ hR2).2]
  simp only [List.isEmpty_cons, Bool.false_eq_true, if_false]
  rw [matchTimestamp_format ms2 hb2]
  simp only [Option.some_bind]
  rw [(spaces_one '\n' (by decide) _ hT).1, (spaces_one '\n' (by decide) _ hT).2]
  simp only [List.isEmpty_cons, Bool.false_eq_true, if_false]
  simp only [natChars_val, time_value]

/-- A time value the writer and parser both represent exactly: a whole
number of milliseconds below 100 hours. -/
def msBounded (q : ℚ) : Prop := ∃ ms : ℕ, ms < 360000000 ∧ q = (ms : ℚ) / 1000

/-- The final three-character test of the lookahead: two digits and a
colon. -/
def headerTest : List Char → Bool
  | a :: b :: c2 :: _ => a.isDigit && b.isDigit && c2 = ':'
  | _ => false

/-- `seamOK rest` says the lookahead `\n\d+\s+\d{2}:` cannot complete
entirely inside `rest`, where `rest` is what follows one of the text's own
newlines.  A match that would have to borrow characters from the written
block separator (`"\n\n"`, followed at mid-file positions by the next
block's digit-only index line and its newline) always fails there, so this
text-only condition is exactly what the scan needs. -/
def seamOK (rest : List Char) : Bool :=
  if (rest.takeWhile Char.isDigit).isEmpty then true
  else if ((rest.dropWhile Char.isDigit).takeWhile isPySpace).isEmpty then true
  else !headerTest ((rest.dropWhile Char.isDigit).dropWhile isPySpace)

/-- `seamOK` at every internal newline of the text. -/
def textSeamFreeB : List Char → Bool
  | [] => true
  | c :: r => (if c = '\n' then seamOK r else true) && textSeamFreeB r

/-- The continuations a text is followed by in a written SRT file: the bare
final separator `"\n\n"`, or the separator followed by the next block,
which starts with a non-empty digit-only index line. -/
def sepSafe (κ : List Char) : Prop :=
  κ = ['\n', '\n']
    ∨ ∃ ds γ, κ = '\n' :: '\n' :: (ds ++ '\n' :: γ)
        ∧ ds ≠ [] ∧ ∀ ch ∈ ds, ch.isDigit = true

/-- Texts on which the cue regex scans forward deterministically:
non-empty, not starting with whitespace, and with no internal line that
mimics a following cue header (`\d+\s+\d\d:`). -/
def textShape (t : String) : Prop :=
  t.data ≠ [] ∧ (∀ y, t.data.head? = some y → isPySpace y = false)
    ∧ textSeamFreeB t.data = true

/-- A cue whose written block is recovered by one regex match (the text
comes back `strip()`ed). -/
def cueParses (c : Cue) : Prop := msBounded c.start ∧ msBounded c.endTime ∧ textShape c.text

theorem bool_eq_false {b : Bool} (h : ¬b = true) : b = false := by
  cases b
  · rfl
  · exact absurd rfl h

theorem digit_ne_colon (ch : Char) (h : ch.isDigit = true) : decide (ch = ':') = false := by
  by_cases hc : ch = ':'
  · subst hc
    exact absurd h (by decide)
  · simp [hc]

theorem dropWhile_head_not (p : Char → Bool) (l : List Char) :
    ∀ y, (l.dropWhile p).head? = some y → p y = false := by
  induction l with
  | nil =>
    intro y hy
    simp at hy
  | cons x xs ih =>
    intro y hy
    rw [List.dropWhile_cons] at hy
    by_cases hx : p x = true
    · rw [if_pos hx] at hy
      exact ih y hy
    · rw [if_neg hx] at hy
      simp only [List.head?_cons, Option.some.injEq] at hy
      rw [← hy]
      exact bool_eq_false hx

theorem takeWhile_all_front (p : Char → Bool) (xs ys : List Char)
    (h : ∀ c ∈ xs, p c = true) :
    (xs ++ ys).takeWhile p = xs ++ ys.takeWhile p := by
  induction xs with
  | nil => rfl
  | cons x xs ih =>
    have hx : p x = true := h x (by simp)
    simp only [List.cons_append, List.takeWhile_cons, hx, if_true]
    rw [ih (fun c hc => h c (by simp [hc]))]

theorem head_append_not (p : Char → Bool) (R κ : List Char)
    (hR : ∀ y, R.head? = some y → p y = false)
    (hκ : ∀ y, κ.head? = some y → p y = false) :
    ∀ y, (R ++ κ).head? = some y → p y = false := by
  intro y hy
  cases R with
  | nil => exact hκ y hy
  | cons a as =>
    simp only [List.cons_append, List.head?_cons, Option.some.injEq] at hy
    exact hy ▸ hR a rfl

/-- `lookaheadCue` at a newline, restated through `headerTest`. -/
theorem lookaheadCue_newline (r : List Char) :
    lookaheadCue ('\n' :: r)
      = (if (r.takeWhile Char.isDigit).isEmpty then false
         else if ((r.dropWhile Char.isDigit).takeWhile isPySpace).isEmpty then false
         else headerTest ((r.dropWhile Char.isDigit).dropWhile isPySpace)) := by
  simp only [lookaheadCue, if_pos rfl, if_true]
  by_cases h1 : (r.takeWhile Char.isDigit).isEmpty = true
  · rw [if_pos h1, if_pos h1]
  · rw [if_neg h1, if_neg h1]
    by_cases h2 : ((r.dropWhile Char.isDigit).takeWhile isPySpace).isEmpty = true
    · rw [if_pos h2, if_pos h2]
    · rw [if_neg h2, if_neg h2]
      rcases (r.dropWhile Char.isDigit).dropWhile isPySpace with _ | ⟨a, _ | ⟨b, _ | ⟨c2, t⟩⟩⟩
        <;> rfl

/-- At a written separator, the space run is non-empty and the header test
fails: the next thing after the separator's whitespace is the next block's
digit-only index line (or nothing). -/
theorem sep_stage (κ : List Char) (hκ : sepSafe κ) :
    (κ.takeWhile isPySpace).isEmpty = false
      ∧ headerTest (κ.dropWhile isPySpace) = false
      ∧ κ.head? = some '\n' := by
  rcases hκ with h | ⟨ds, γ, h, hne, hdig⟩
  · subst h
    exact ⟨by decide, by decide, rfl⟩
  · subst h
    rcases ds with _ | ⟨d1, ds1⟩
    · exact absurd rfl hne
    have hd1 : Char.isDigit d1 = true := hdig d1 (by simp)
    refine ⟨?_, ?_, rfl⟩
    · rw [List.takeWhile_cons_of_pos (by decide), List.takeWhile_cons_of_pos (by decide)]
      rfl
    · rw [List.dropWhile_cons_of_pos (by decide), List.dropWhile_cons_of_pos (by decide),
        List.cons_append,
        List.dropWhile_cons_of_neg (by simp [isDigit_not_pySpace d1 hd1])]
      rcases ds1 with _ | ⟨d2, ds2⟩
      · rcases γ with _ | ⟨g, γ2⟩
        · rfl
        · show (d1.isDigit && '\n'.isDigit && decide (g = ':')) = false
          rw [show '\n'.isDigit = false from by decide]
          simp
      · have hd2 : Char.isDigit d2 = true := hdig d2 (by simp)
        rcases ds2 with _ | ⟨d3, ds3⟩
        · show (d1.isDigit && d2.isDigit && decide ('\n' = ':')) = false
          rw [show decide ('\n' = ':') = false from by decide]
          simp
        · have hd3 : Char.isDigit d3 = true := hdig d3 (by simp)
          show (d1.isDigit && d2.isDigit && decide (d3 = ':')) = false
          rw [digit_ne_colon d3 hd3]
          simp

/-- The lookahead never fires at a text-internal newline: the continuation
after the text is a written separator, and a `seamOK` remainder cannot
complete the pattern before reaching it. -/
theorem lookahead_seam_false (rest κ : List Char) (hκ : sepSafe κ)
    (hseam : seamOK rest = true) :
    lookaheadCue ('\n' :: (rest ++ κ)) = false := by
  obtain ⟨hκtake, hκtest, hκhead⟩ := sep_stage κ hκ
  have hκd : ∀ y, κ.head? = some y → Char.isDigit y = false := by
    intro y hy
    rw [hκhead] at hy
    simp only [Option.some.injEq] at hy
    rw [← hy]
    rfl
  have hRhead : ∀ y, (rest.dropWhile Char.isDigit).head? = some y
      → Char.isDigit y = false :=
    dropWhile_head_not Char.isDigit rest
  have hcomb : ∀ y, (rest.dropWhile Char.isDigit ++ κ).head? = some y
      → Char.isDigit y = false :=
    head_append_not _ _ _ hRhead hκd
  have hall : ∀ c ∈ rest.takeWhile Char.isDigit, Char.isDigit c = true :=
    fun c hc => List.mem_takeWhile_imp hc
  have h1 : (rest ++ κ).takeWhile Char.isDigit = rest.takeWhile Char.isDigit := by
    conv_lhs => rw [← List.takeWhile_append_dropWhile Char.isDigit rest]
    rw [List.append_assoc]
    exact takeWhile_all_append _ _ _ hall hcomb
  have h2 : (rest ++ κ).dropWhile Char.isDigit = rest.dropWhile Char.isDigit ++ κ := by
    conv_lhs => rw [← List.takeWhile_append_dropWhile Char.isDigit rest]
    rw [List.append_assoc]
    exact dropWhile_all_append _ _ _ hall hcomb
  rw [lookaheadCue_newline, h1, h2]
  by_cases hD : (rest.takeWhile Char.isDigit).isEmpty = true
  · rw [if_pos hD]
  · rw [if_neg hD]
    by_cases hS : ((rest.dropWhile Char.isDigit).takeWhile isPySpace).isEmpty = true
    · rcases hR : rest.dropWhile Char.isDigit with _ | ⟨s, R1⟩
      · simp only [List.nil_append]
        rw [if_neg (by rw [hκtake]; simp)]
        exact hκtest
      · have hss : isPySpace s = false := by
          by_cases hp : isPySpace s = true
          · rw [hR, List.takeWhile_cons_of_pos hp] at hS
            simp at hS
          · exact bool_eq_false hp
        rw [List.cons_append, List.takeWhile_cons_of_neg (by simp [hss])]
        rfl
    · simp only [seamOK] at hseam
      rw [if_neg hD, if_neg hS] at hseam
      rcases hR2 : (rest.dropWhile Char.isDigit).dropWhile isPySpace with _ | ⟨x, R2⟩
      · have hallsp : ∀ c ∈ rest.dropWhile Char.isDigit, isPySpace c = true := by
          intro c hc
          have := List.dropWhile_eq_nil_iff.mp hR2
          exact this c hc
        have hRne : rest.dropWhile Char.isDigit ≠ [] := by
          intro he
          rw [he] at hS
          simp at hS
        rw [takeWhile_all_front isPySpace _ κ hallsp]
        rw [if_neg (by rw [isEmpty_false_of_ne_nil (by simp [hRne])]; simp)]
        rw [dropWhile_all_front isPySpace _ κ hallsp]
        exact hκtest
      · have hxs : isPySpace x = false := by
          have := dropWhile_head_not isPySpace (rest.dropWhile Char.isDigit)
          rw [hR2] at this
          exact this x rfl
        have hSall : ∀ c ∈ (rest.dropWhile Char.isDigit).takeWhile isPySpace,
            isPySpace c = true :=
          fun c hc => List.mem_takeWhile_imp hc
        have hxhead : ∀ y, ((x :: R2) ++ κ).head? = some y → isPySpace y = false := by
          intro y hy
          simp only [List.cons_append, List.head?_cons, Option.some.injEq] at hy
          rw [← hy]
          exact hxs
        have hsplit : rest.dropWhile Char.isDigit ++ κ
            = (rest.dropWhile Char.isDigit).takeWhile isPySpace ++ ((x :: R2) ++ κ) := by
          conv_lhs =>
            rw [← List.takeWhile_append_dropWhile isPySpace (rest.dropWhile Char.isDigit)]
          rw [hR2, List.append_assoc]
        rw [hsplit, takeWhile_all_append isPySpace _ _ hSall hxhead,
          dropWhile_all_append isPySpace _ _ hSall hxhead]
        rw [if_neg hS]
        obtain ⟨κ2, hκ2⟩ : ∃ κ2, κ = '\n' :: κ2 := by
          cases κ with
          | nil => simp at hκhead
          | cons k ks =>
            simp only [List.head?_cons, Option.some.injEq] at hκhead
            exact ⟨ks, by rw [hκhead]⟩
        rw [hR2] at hseam
        have hseam2 : headerTest (x :: R2) = false := by
          cases hh : headerTest (x :: R2)
          · rfl
          · rw [hh] at hseam
            exact absurd hseam (by decide)
        rcases R2 with _ | ⟨y, _ | ⟨z, R3⟩⟩
        · rw [hκ2]
          rcases κ2 with _ | ⟨k, κ3⟩
          · rfl
          · show (x.isDigit && '\n'.isDigit && decide (k = ':')) = false
            rw [show '\n'.isDigit = false from by decide]
            simp
        · rw [hκ2]
          show (x.isDigit && y.isDigit && decide ('\n' = ':')) = false
          rw [show decide ('\n' = ':') = false from by decide]
          simp
        · rw [show headerTest ((x :: y :: z :: R3) ++ κ)
              = headerTest (x :: y :: z :: R3) from rfl]
          exact hseam2

/-- Scanning through a seam-free text never stops the lazy capture: the
scan pointer moves to the continuation. -/
theorem lazyTextGo_seamFree (κ : List Char) (hκ : sepSafe κ) :
    ∀ (td acc : List Char), textSeamFreeB td = true →
      lazyTextGo acc (td ++ κ) = lazyTextGo (acc ++ td) κ := by
  intro td
  induction td with
  | nil =>
    intro acc _
    rw [List.append_nil, List.nil_append]
  | cons c r ih =>
    intro acc hsf
    have hsf2 : (if c = '\n' then seamOK r else true) = true ∧ textSeamFreeB r = true := by
      rw [show textSeamFreeB (c :: r)
          = ((if c = '\n' then seamOK r else true) && textSeamFreeB r) from rfl] at hsf
      exact Bool.and_eq_true_iff.mp hsf
    have hfalse : lookaheadCue (c :: (r ++ κ)) = false := by
      by_cases hc : c = '\n'
      · subst hc
        refine lookahead_seam_false r κ hκ ?_
        have := hsf2.1
        rwa [if_pos rfl] at this
      · exact lookaheadCue_cons_false c _ hc
    rw [List.cons_append, lazyTextGo, if_neg (by simp [hfalse])]
    rw [ih (acc ++ [c]) hsf2.2]
    rw [List.append_assoc]
    rfl

theorem matchAt_block (c : Cue) (hc : cueParses c) (tail : List Char) :
    matchAt ((cueBlock c).data ++ tail)
      = (lazyText (c.text.data ++ '\n' :: '\n' :: tail)).bind fun tx =>
          some ({ index := c.index, start := c.start, endTime := c.endTime,
                  text := pyStrip ⟨tx.1⟩ }, tx.2) := by
  obtain ⟨⟨ms1, hb1, hq1⟩, ⟨ms2, hb2, hq2⟩, htne, hthead, hsf⟩ := hc
  have hshape : (cueBlock c).data ++ tail = natChars c.index ++ '\n'
      :: ((format_srt_time ((ms1 : ℚ) / 1000)).data
        ++ ' ' :: '-' :: '-' :: '>' :: ' '
        :: ((format_srt_time ((ms2 : ℚ) / 1000)).data
          ++ '\n' :: (c.text.data ++ '\n' :: '\n' :: tail))) := by
    rw [cueBlock_data, hq1, hq2]
    simp [List.append_assoc]
  rw [hshape, matchAt_structure c.index ms1 ms2 hb1 hb2 c.text.data htne hthead tail,
    ← hq1, ← hq2]

theorem lookaheadCue_double_newline (tail : List Char) :
    lookaheadCue ('\n' :: '\n' :: tail) = false := by
  simp [lookaheadCue, List.takeWhile_cons_of_neg (show ¬('\n'.isDigit = true) by decide)]

/-- The lookahead accepts at the newline preceding the next written block. -/
theorem lookahead_next_block (c2 : Cue) (hms : msBounded c2.start) (tail3 : List Char) :
    lookaheadCue ('\n' :: ((cueBlock c2).data ++ tail3)) = true := by
  obtain ⟨ms, hb, hq⟩ := hms
  have hshape : (cueBlock c2).data ++ tail3 = natChars c2.index ++ '\n'
      :: ((format_srt_time ((ms : ℚ) / 1000)).data
        ++ ' ' :: '-' :: '-' :: '>' :: ' '
        :: ((format_srt_time c2.endTime).data
          ++ '\n' :: (c2.text.data ++ '\n' :: '\n' :: tail3))) := by
    rw [cueBlock_data, hq]
    simp [List.append_assoc]
  rw [hshape]
  simp only [lookaheadCue, if_pos rfl]
  rw [takeWhile_all_append Char.isDigit (natChars c2.index) _
      (natChars_digits c2.index) (by intro y hy; simp at hy; rw [← hy]; decide),
    dropWhile_all_append Char.isDigit (natChars c2.index) _
      (natChars_digits c2.index) (by intro y hy; simp at hy; rw [← hy]; decide)]
  rw [isEmpty_false_of_ne_nil (natChars_ne_nil c2.index)]
  have hhead : ∀ y, ((format_srt_time ((ms : ℚ) / 1000)).data
      ++ ' ' :: '-' :: '-' :: '>' :: ' '
      :: ((format_srt_time c2.endTime).data
        ++ '\n' :: (c2.text.data ++ '\n' :: '\n' :: tail3))).head? = some y
      → isPySpace y = false :=
    head_not_space_append _ _ (format_srt_time_head ms (by omega))
      (format_srt_time_ne_nil ms (by omega))
  rw [(spaces_one '\n' (by decide) _ hhead).1, (spaces_one '\n' (by decide) _ hhead).2]
  simp only [List.isEmpty_cons, Bool.false_eq_true, if_false]
  obtain ⟨a, b, hab, ha, hbd⟩ := pad2_shape (ms / 3600000) (by omega)
  rw [format_srt_time_data, hab]
  simp [ha, hbd]

/-- Lazy capture when the block is the last one: the text plus both closing
newlines are captured and the input is exhausted. -/
theorem lazyText_last (td : List Char) (htne : td ≠ [])
    (hsf : textSeamFreeB td = true) :
    lazyText (td ++ '\n' :: '\n' :: []) = some (td ++ ['\n', '\n'], []) := by
  cases td with
  | nil => exact absurd rfl htne
  | cons t ts =>
    have hts : textSeamFreeB ts = true := by
      rw [show textSeamFreeB (t :: ts)
          = ((if t = '\n' then seamOK ts else true) && textSeamFreeB ts) from rfl] at hsf
      exact (Bool.and_eq_true_iff.mp hsf).2
    simp only [List.cons_append, lazyText]
    rw [lazyTextGo_seamFree ['\n', '\n'] (Or.inl rfl) ts [t] hts]
    rw [lazyTextGo, if_neg (by rw [lookaheadCue_double_newline]; simp)]
    rw [lazyTextGo, if_neg (by decide)]
    rw [lazyTextGo]
    simp [List.append_assoc]

/-- Lazy capture when another block follows: the text plus one newline are
captured and the match stops right before the second newline. -/
theorem lazyText_mid (td tail2 : List Char) (htne : td ≠ [])
    (hsf : textSeamFreeB td = true)
    (hsep : sepSafe ('\n' :: '\n' :: tail2))
    (hlook : lookaheadCue ('\n' :: tail2) = true) :
    lazyText (td ++ '\n' :: '\n' :: tail2) = some (td ++ ['\n'], '\n' :: tail2) := by
  cases td with
  | nil => exact absurd rfl htne
  | cons t ts =>
    have hts : textSeamFreeB ts = true := by
      rw [show textSeamFreeB (t :: ts)
          = ((if t = '\n' then seamOK ts else true) && textSeamFreeB ts) from rfl] at hsf
      exact (Bool.and_eq_true_iff.mp hsf).2
    simp only [List.cons_append, lazyText]
    rw [lazyTextGo_seamFree ('\n' :: '\n' :: tail2) hsep ts [t] hts]
    rw [lazyTextGo, if_neg (by rw [lookaheadCue_double_newline]; simp)]
    rw [lazyTextGo, if_pos hlook]
    simp [List.append_assoc]

theorem matchAt_newline (l : List Char) : matchAt ('\n' :: l) = none := by
  simp [matchAt, List.takeWhile_cons_of_neg (show ¬('\n'.isDigit = true) by decide)]

theorem findallSrt_skip_newline (fuel : Nat) (l : List Char) :
    findallSrt (fuel + 1) ('\n' :: l) = findallSrt fuel l := by
  simp [findallSrt, matchAt_newline]

theorem findallSrt_of_matchAt (fuel : Nat) (l : List Char) (hne : l ≠ [])
    (cue : Cue) (r : List Char) (hm : matchAt l = some (cue, r)) :
    findallSrt (fuel + 1) l = cue :: findallSrt fuel r := by
  cases l with
  | nil => exact absurd rfl hne
  | cons c rest => simp [findallSrt, hm]

theorem findallSrt_nil (fuel : Nat) : findallSrt fuel [] = [] := by
  cases fuel <;> rfl

theorem srtContent_data (c : Cue) (cs : List Cue) :
    (srtContent (c :: cs)).data = (cueBlock c).data ++ (srtContent cs).data := by
  rfl

theorem cueBlock_data_ne_nil (c : Cue) : (cueBlock c).data ≠ [] := by
  rw [cueBlock_data]
  intro he
  exact natChars_ne_nil c.index (List.append_eq_nil.mp he).1

theorem cueBlock_len2 (c : Cue) : 2 ≤ (cueBlock c).data.length := by
  rw [cueBlock_data]
  have h1 : 0 < (natChars c.index).length :=
    List.length_pos.mpr (natChars_ne_nil c.index)
  simp only [List.length_append, List.length_cons]
  omega

/-- The parsed text of a written block is the `strip()` of its cue's text. -/
theorem strip_of_capture_last (t : String) (ht : textShape t) :
    pyStrip ⟨t.data ++ ['\n', '\n']⟩ = pyStrip t := by
  obtain ⟨htne, hthead, _⟩ := ht
  unfold pyStrip
  congr 1
  exact pyStripList_append_spaces t.data ['\n', '\n'] hthead (by decide)

theorem strip_of_capture_mid (t : String) (ht : textShape t) :
    pyStrip ⟨t.data ++ ['\n']⟩ = pyStrip t := by
  obtain ⟨htne, hthead, _⟩ := ht
  unfold pyStrip
  congr 1
  exact pyStripList_append_spaces t.data ['\n'] hthead (by decide)

/-- `re.findall` over a fully written SRT file recovers every cue, each
with its text `strip()`ed, provided the scan fuel covers the input. -/
theorem findallSrt_srtContent (cs : List Cue) (h : ∀ c ∈ cs, cueParses c) :
    ∀ fuel, (srtContent cs).data.length ≤ fuel →
      findallSrt fuel (srtContent cs).data
        = cs.map (fun c => { c with text := pyStrip c.text }) := by
  induction cs with
  | nil =>
    intro fuel _
    rw [show (srtContent []).data = [] from rfl, findallSrt_nil]
    rfl
  | cons c cs ih =>
    intro fuel hfuel
    have hc := h c (by simp)
    have hlen2 := cueBlock_len2 c
    rw [srtContent_data] at hfuel ⊢
    rw [List.length_append] at hfuel
    obtain ⟨f, rfl⟩ : ∃ f, fuel = f + 1 := ⟨fuel - 1, by omega⟩
    cases cs with
    | nil =>
      rw [show (srtContent []).data = [] from rfl, List.append_nil]
      have hm : matchAt ((cueBlock c).data)
          = some ({ index := c.index, start := c.start, endTime := c.endTime,
                    text := pyStrip c.text }, []) := by
        have := matchAt_block c hc []
        rw [List.append_nil] at this
        rw [this, lazyText_last c.text.data hc.2.2.1 hc.2.2.2.2]
        simp only [Option.some_bind]
        rw [show (⟨c.text.data ++ ['\n', '\n']⟩ : String)
            = ⟨c.text.data ++ ['\n', '\n']⟩ from rfl]
        rw [strip_of_capture_last c.text hc.2.2]
      rw [findallSrt_of_matchAt f _ (cueBlock_data_ne_nil c) _ _ hm, findallSrt_nil]
      rfl
    | cons c2 cs2 =>
      have hc2 := h c2 (by simp)
      have hlook : lookaheadCue ('\n' :: ((srtContent (c2 :: cs2)).data)) = true := by
        rw [srtContent_data]
        exact lookahead_next_block c2 hc2.1 ((srtContent cs2).data)
      have hsep : sepSafe ('\n' :: '\n' :: (srtContent (c2 :: cs2)).data) :=
        Or.inr ⟨natChars c2.index,
          ((format_srt_time c2.start).data
            ++ ' ' :: '-' :: '-' :: '>' :: ' ' :: ((format_srt_time c2.endTime).data
            ++ '\n' :: (c2.text.data ++ '\n' :: '\n' :: []))) ++ (srtContent cs2).data,
          by rw [srtContent_data, cueBlock_data, List.append_assoc, List.cons_append],
          natChars_ne_nil c2.index, natChars_digits c2.index⟩
      have hm : matchAt ((cueBlock c).data ++ (srtContent (c2 :: cs2)).data)
          = some ({ index := c.index, start := c.start, endTime := c.endTime,
                    text := pyStrip c.text },
              '\n' :: (srtContent (c2 :: cs2)).data) := by
        rw [matchAt_block c hc _,
          lazyText_mid c.text.data _ hc.2.2.1 hc.2.2.2.2 hsep hlook]
        simp only [Option.some_bind]
        rw [strip_of_capture_mid c.text hc.2.2]
      have hne : (cueBlock c).data ++ (srtContent (c2 :: cs2)).data ≠ [] := by
        intro he
        exact cueBlock_data_ne_nil c (List.append_eq_nil.mp he).1
      rw [findallSrt_of_matchAt f _ hne _ _ hm]
      obtain ⟨f2, rfl⟩ : ∃ f2, f = f2 + 1 := ⟨f - 1, by omega⟩
      rw [findallSrt_skip_newline]
      rw [ih (fun x hx => h x (by simp [hx])) f2 (by omega)]
      rfl

/-- The session's parser inverts the session's writer, up to `strip()` of
each text. -/
theorem parseSrt_srtContent (cs : List Cue) (h : ∀ c ∈ cs, cueParses c) :
    parseSrt (srtContent cs) = cs.map (fun c => { c with text := pyStrip c.text }) := by
  unfold parseSrt
  exact findallSrt_srtContent cs h _ le_rfl

/- ### Case characterization of one chunk inspection -/

theorem inspectChunk_skip (u : Bool) (d : Nat) (v : ChunkView) (s : LoopState)
    (i : Nat) (h : (v.present && !(s.processed.contains i)) = false) :
    inspectChunk u d v s i = s := by
  simp only [inspectChunk, h, Bool.false_eq_true, if_false]

theorem inspectChunk_zero (u : Bool) (d : Nat) (v : ChunkView) (s : LoopState)
    (i : Nat) (h : (v.present && !(s.processed.contains i)) = true)
    (hz : v.size = 0) :
    inspectChunk u d v s i = { s with processed := i :: s.processed } := by
  simp only [inspectChunk]
  rw [if_pos h, if_pos hz]

theorem inspectChunk_fail (u : Bool) (d : Nat) (v : ChunkView) (s : LoopState)
    (i : Nat) (h : (v.present && !(s.processed.contains i)) = true)
    (hz : ¬v.size = 0) (hok : v.transcribeOk = false) :
    inspectChunk u d v s i
      = { s with processed := i :: s.processed,
                 transcribedLog := s.transcribedLog ++ [i] } := by
  simp only [inspectChunk]
  rw [if_pos h, if_neg hz, if_neg (by simp [hok])]

theorem inspectChunk_noText (u : Bool) (d : Nat) (v : ChunkView) (s : LoopState)
    (i : Nat) (h : (v.present && !(s.processed.contains i)) = true)
    (hz : ¬v.size = 0) (hok : v.transcribeOk = true) (ht : pyStrip v.text = "") :
    inspectChunk u d v s i
      = { s with processed := i :: s.processed,
                 transcribedLog := s.transcribedLog ++ [i],
                 chunkCounter := i + 1 } := by
  simp only [inspectChunk]
  rw [if_pos h, if_neg hz, if_pos hok, if_pos ht]

theorem inspectChunk_cue_hls (d : Nat) (v : ChunkView) (s : LoopState)
    (i : Nat) (h : (v.present && !(s.processed.contains i)) = true)
    (hz : ¬v.size = 0) (hok : v.transcribeOk = true) (ht : ¬pyStrip v.text = "") :
    inspectChunk true d v s i
      = { chunkCounter := i + 1,
          processed := i :: s.processed,
          subtitleIndex := s.subtitleIndex + 1,
          allSubtitles := s.allSubtitles
            ++ [{ index := s.subtitleIndex, start := ((i * d : ℕ) : ℚ),
                  endTime := (((i + 1) * d : ℕ) : ℚ), text := pyStrip v.text }],
          transcribedLog := s.transcribedLog ++ [i],
          flushes := s.flushes ++ [s.allSubtitles
            ++ [{ index := s.subtitleIndex, start := ((i * d : ℕ) : ℚ),
                  endTime := (((i + 1) * d : ℕ) : ℚ), text := pyStrip v.text }]],
          restarts := s.restarts } := by
  simp only [inspectChunk]
  rw [if_pos h, if_neg hz, if_pos hok, if_neg ht]
  simp

theorem inspectChunk_cue_nohls (d : Nat) (v : ChunkView) (s : LoopState)
    (i : Nat) (h : (v.present && !(s.processed.contains i)) = true)
    (hz : ¬v.size = 0) (hok : v.transcribeOk = true) (ht : ¬pyStrip v.text = "") :
    inspectChunk false d v s i
      = { chunkCounter := i + 1,
          processed := i :: s.processed,
          subtitleIndex := s.subtitleIndex + 1,
          allSubtitles := s.allSubtitles
            ++ [{ index := s.subtitleIndex, start := ((i * d : ℕ) : ℚ),
                  endTime := (((i + 1) * d : ℕ) : ℚ), text := pyStrip v.text }],
          transcribedLog := s.transcribedLog ++ [i],
          flushes := s.flushes ++ [s.allSubtitles
            ++ [{ index := s.subtitleIndex, start := ((i * d : ℕ) : ℚ),
                  endTime := (((i + 1) * d : ℕ) : ℚ), text := pyStrip v.text }]],
          restarts := s.restarts
            ++ [(s.allSubtitles
              ++ [({ index := s.subtitleIndex, start := ((i * d : ℕ) : ℚ),
                     endTime := (((i + 1) * d : ℕ) : ℚ),
                     text := pyStrip v.text } : Cue)]).length] } := by
  simp only [inspectChunk]
  rw [if_pos h, if_neg hz, if_pos hok, if_neg ht]
  simp

theorem vlcInspectChunk_skip (d : Nat) (v : ChunkView) (s : LoopState)
    (i : Nat) (h : (v.present && !(s.processed.contains i)) = false) :
    vlcInspectChunk d v s i = s := by
  simp only [vlcInspectChunk, h, Bool.false_eq_true, if_false]

theorem vlcInspectChunk_zero (d : Nat) (v : ChunkView) (s : LoopState)
    (i : Nat) (h : (v.present && !(s.processed.contains i)) = true)
    (hz : v.size = 0) :
    vlcInspectChunk d v s i = { s with processed := i :: s.processed } := by
  simp only [vlcInspectChunk]
  rw [if_pos h, if_pos hz]

theorem vlcInspectChunk_fail (d : Nat) (v : ChunkView) (s : LoopState)
    (i : Nat) (h : (v.present && !(s.processed.contains i)) = true)
    (hz : ¬v.size = 0) (hok : v.transcribeOk = false) :
    vlcInspectChunk d v s i
      = { s with processed := i :: s.processed,
                 transcribedLog := s.transcribedLog ++ [i] } := by
  simp only [vlcInspectChunk]
  rw [if_pos h, if_neg hz, if_neg (by simp [hok])]

theorem vlcInspectChunk_noText (d : Nat) (v : ChunkView) (s : LoopState)
    (i : Nat) (h : (v.present && !(s.processed.contains i)) = true)
    (hz : ¬v.size = 0) (hok : v.transcribeOk = true) (ht : pyStrip v.text = "") :
    vlcInspectChunk d v s i
      = { s with processed := i :: s.processed,
                 transcribedLog := s.transcribedLog ++ [i],
                 chunkCounter := i + 1 } := by
  simp only [vlcInspectChunk]
  rw [if_pos h, if_neg hz, if_pos hok, if_pos ht]

theorem vlcInspectChunk_cue (d : Nat) (v : ChunkView) (s : LoopState)
    (i : Nat) (h : (v.present && !(s.processed.contains i)) = true)
    (hz : ¬v.size = 0) (hok : v.transcribeOk = true) (ht : ¬pyStrip v.text = "") :
    vlcInspectChunk d v s i
      = { chunkCounter := i + 1,
          processed := i :: s.processed,
          subtitleIndex := s.subtitleIndex + 1,
          allSubtitles := s.allSubtitles
            ++ [{ index := s.subtitleIndex, start := ((i * d : ℕ) : ℚ),
                  endTime := (((i + 1) * d : ℕ) : ℚ), text := pyStrip v.text }],
          transcribedLog := s.transcribedLog ++ [i],
          flushes := s.flushes ++ [s.allSubtitles
            ++ [{ index := s.subtitleIndex, start := ((i * d : ℕ) : ℚ),
                  endTime := (((i + 1) * d : ℕ) : ℚ), text := pyStrip v.text }]],
          restarts := if s.subtitleIndex % 3 == 0
                      then s.restarts ++ [s.subtitleIndex] else s.restarts } := by
  simp only [vlcInspectChunk]
  rw [if_pos h, if_neg hz, if_pos hok, if_neg ht]
  by_cases h3 : s.subtitleIndex % 3 == 0
  · rw [if_pos h3, if_pos h3]
  · rw [if_neg h3, if_neg h3]


theorem not_claimed_of_cond {v : ChunkView} {s : LoopState} {i : Nat}
    (h : (v.present && !(s.processed.contains i)) = true) : i ∉ s.processed := by
  have h2 := ((Bool.and_eq_true _ _).mp h).2
  intro hmem
  have hc : s.processed.contains i = true := List.elem_eq_true_of_mem hmem
  rw [hc] at h2
  exact absurd h2 (by decide)

/-- The cue appended for chunk `i` when the stripped transcription `t` is
non-empty. -/
def cueOf (d : Nat) (s : LoopState) (i : Nat) (t : String) : Cue :=
  { index := s.subtitleIndex, start := ((i * d : ℕ) : ℚ),
    endTime := (((i + 1) * d : ℕ) : ℚ), text := t }

/-- The successor state after a cue is appended in the web loop. -/
def cueState (u : Bool) (d : Nat) (v : ChunkView) (s : LoopState) (i : Nat) :
    LoopState :=
  { chunkCounter := i + 1,
    processed := i :: s.processed,
    subtitleIndex := s.subtitleIndex + 1,
    allSubtitles := s.allSubtitles ++ [cueOf d s i (pyStrip v.text)],
    transcribedLog := s.transcribedLog ++ [i],
    flushes := s.flushes ++ [s.allSubtitles ++ [cueOf d s i (pyStrip v.text)]],
    restarts := if u then s.restarts
                else s.restarts ++ [(s.allSubtitles ++ [cueOf d s i (pyStrip v.text)]).length] }

/-- The successor state after a cue is appended in the vlc loop. -/
def vlcCueState (d : Nat) (v : ChunkView) (s : LoopState) (i : Nat) : LoopState :=
  { chunkCounter := i + 1,
    processed := i :: s.processed,
    subtitleIndex := s.subtitleIndex + 1,
    allSubtitles := s.allSubtitles ++ [cueOf d s i (pyStrip v.text)],
    transcribedLog := s.transcribedLog ++ [i],
    flushes := s.flushes ++ [s.allSubtitles ++ [cueOf d s i (pyStrip v.text)]],
    restarts := if s.subtitleIndex % 3 == 0
                then s.restarts ++ [s.subtitleIndex] else s.restarts }

theorem inspectChunk_outcomes (u : Bool) (d : Nat) (v : ChunkView) (s : LoopState)
    (i : Nat) :
    inspectChunk u d v s i = s
    ∨ (i ∉ s.processed ∧
        (inspectChunk u d v s i = { s with processed := i :: s.processed }
        ∨ inspectChunk u d v s i
            = { s with processed := i :: s.processed,
                       transcribedLog := s.transcribedLog ++ [i] }
        ∨ inspectChunk u d v s i
            = { s with processed := i :: s.processed,
                       transcribedLog := s.transcribedLog ++ [i],
                       chunkCounter := i + 1 }
        ∨ (¬pyStrip v.text = "" ∧ inspectChunk u d v s i = cueState u d v s i))) := by
  by_cases hcond : (v.present && !(s.processed.contains i)) = true
  · right
    refine ⟨not_claimed_of_cond hcond, ?_⟩
    by_cases hz : v.size = 0
    · exact Or.inl (inspectChunk_zero u d v s i hcond hz)
    · by_cases hok : v.transcribeOk = true
      · by_cases ht : pyStrip v.text = ""
        · exact Or.inr (Or.inr (Or.inl (inspectChunk_noText u d v s i hcond hz hok ht)))
        · refine Or.inr (Or.inr (Or.inr ⟨ht, ?_⟩))
          cases u
          · rw [inspectChunk_cue_nohls d v s i hcond hz hok ht]
            simp [cueState, cueOf]
          · rw [inspectChunk_cue_hls d v s i hcond hz hok ht]
            simp [cueState, cueOf]
      · exact Or.inr (Or.inl (inspectChunk_fail u d v s i hcond hz (bool_eq_false hok)))
  · exact Or.inl (inspectChunk_skip u d v s i (bool_eq_false hcond))

theorem vlcInspectChunk_outcomes (d : Nat) (v : ChunkView) (s : LoopState)
    (i : Nat) :
    vlcInspectChunk d v s i = s
    ∨ (i ∉ s.processed ∧
        (vlcInspectChunk d v s i = { s with processed := i :: s.processed }
        ∨ vlcInspectChunk d v s i
            = { s with processed := i :: s.processed,
                       transcribedLog := s.transcribedLog ++ [i] }
        ∨ vlcInspectChunk d v s i
            = { s with processed := i :: s.processed,
                       transcribedLog := s.transcribedLog ++ [i],
                       chunkCounter := i + 1 }
        ∨ (¬pyStrip v.text = "" ∧ vlcInspectChunk d v s i = vlcCueState d v s i))) := by
  by_cases hcond : (v.present && !(s.processed.contains i)) = true
  · right
    refine ⟨not_claimed_of_cond hcond, ?_⟩
    by_cases hz : v.size = 0
    · exact Or.inl (vlcInspectChunk_zero d v s i hcond hz)
    · by_cases hok : v.transcribeOk = true
      · by_cases ht : pyStrip v.text = ""
        · exact Or.inr (Or.inr (Or.inl (vlcInspectChunk_noText d v s i hcond hz hok ht)))
        · refine Or.inr (Or.inr (Or.inr ⟨ht, ?_⟩))
          rw [vlcInspectChunk_cue d v s i hcond hz hok ht]
          simp [vlcCueState, cueOf]
      · exact Or.inr (Or.inl (vlcInspectChunk_fail d v s i hcond hz (bool_eq_false hok)))
  · exact Or.inl (vlcInspectChunk_skip d v s i (bool_eq_false hcond))

/- ### Invariant helpers for the worker loops -/

theorem foldl_state_preserve (f : LoopState → Nat → LoopState) (P : LoopState → Prop)
    (hstep : ∀ s i, P s → P (f s i)) :
    ∀ (l : List Nat) (s : LoopState), P s → P (l.foldl f s) := by
  intro l
  induction l with
  | nil => intro s hs; exact hs
  | cons a l ih => intro s hs; exact ih (f s a) (hstep s a hs)

theorem runLoop_preserve (u : Bool) (d : Nat) (env : Nat → Nat → ChunkView)
    (running alive : Nat → Bool) (P : LoopState → Prop)
    (h0 : P initLoopState)
    (hstep : ∀ n s i, P s → P (inspectChunk u d (env n i) s i)) :
    ∀ n, P (runLoop u d env running alive n) := by
  intro n
  induction n with
  | zero => exact h0
  | succ n ih =>
    simp only [runLoop]
    by_cases hr : (running n && alive n) = true
    · rw [if_pos hr]
      exact foldl_state_preserve _ P (fun s i hs => hstep n s i hs) _ _ ih
    · rw [if_neg hr]
      exact ih

theorem vlcRunLoop_preserve (d : Nat) (env : Nat → Nat → ChunkView)
    (cont : Nat → Bool) (P : LoopState → Prop)
    (h0 : P initLoopState)
    (hstep : ∀ n s i, P s → P (vlcInspectChunk d (env n i) s i)) :
    ∀ n, P (vlcRunLoop d env cont n) := by
  intro n
  induction n with
  | zero => exact h0
  | succ n ih =>
    simp only [vlcRunLoop]
    by_cases hr : cont n = true
    · rw [if_pos hr]
      exact foldl_state_preserve _ P (fun s i hs => hstep n s i hs) _ _ ih
    · rw [if_neg hr]
      exact ih

theorem foldl_range'_preserve (f : LoopState → Nat → LoopState) (P : LoopState → Prop)
    (hstep : ∀ s i, P s → s.chunkCounter ≤ i →
      P (f s i) ∧ (f s i).chunkCounter ≤ i + 1) :
    ∀ (len start : Nat) (s : LoopState), P s → s.chunkCounter ≤ start →
      P ((List.range' start len).foldl f s)
        ∧ ((List.range' start len).foldl f s).chunkCounter ≤ start + len := by
  intro len
  induction len with
  | zero =>
    intro start s hs hc
    exact ⟨hs, by simpa using hc⟩
  | succ n ih =>
    intro start s hs hc
    rw [show List.range' start (n + 1) = start :: List.range' (start + 1) n from rfl]
    simp only [List.foldl_cons]
    have h1 := hstep s start hs hc
    have h2 := ih (start + 1) (f s start) h1.1 h1.2
    refine ⟨h2.1, ?_⟩
    have := h2.2
    omega

theorem runLoop_preserve_ordered (u : Bool) (d : Nat) (env : Nat → Nat → ChunkView)
    (running alive : Nat → Bool) (P : LoopState → Prop)
    (h0 : P initLoopState)
    (hstep : ∀ n s i, P s → s.chunkCounter ≤ i →
      P (inspectChunk u d (env n i) s i)
        ∧ (inspectChunk u d (env n i) s i).chunkCounter ≤ i + 1) :
    ∀ n, P (runLoop u d env running alive n) := by
  intro n
  induction n with
  | zero => exact h0
  | succ n ih =>
    simp only [runLoop]
    by_cases hr : (running n && alive n) = true
    · rw [if_pos hr]
      exact (foldl_range'_preserve _ P (fun s i hs hc => hstep n s i hs hc)
        10 _ _ ih le_rfl).1
    · rw [if_neg hr]
      exact ih

/- ### At-most-once claiming (C2) -/

/-- Each transcription call is for a fresh index, and every transcribed
index has been marked processed. -/
def atMostOnce (s : LoopState) : Prop :=
  s.transcribedLog.Nodup ∧ ∀ j ∈ s.transcribedLog, j ∈ s.processed

theorem atMostOnce_append (s : LoopState) (i : Nat) (hni : i ∉ s.processed)
    (h : atMostOnce s) :
    (s.transcribedLog ++ [i]).Nodup
      ∧ ∀ j ∈ s.transcribedLog ++ [i], j ∈ i :: s.processed := by
  obtain ⟨hnd, hsub⟩ := h
  constructor
  · rw [List.nodup_append]
    refine ⟨hnd, List.nodup_singleton i, ?_⟩
    intro a ha hb
    simp only [List.mem_singleton] at hb
    subst hb
    exact hni (hsub a ha)
  · intro j hj
    rcases List.mem_append.mp hj with hj | hj
    · exact List.mem_cons_of_mem _ (hsub j hj)
    · simp only [List.mem_singleton] at hj
      subst hj
      exact List.mem_cons_self _ _

theorem atMostOnce_inspect (u : Bool) (d : Nat) (v : ChunkView) (s : LoopState)
    (i : Nat) (h : atMostOnce s) : atMostOnce (inspectChunk u d v s i) := by
  rcases inspectChunk_outcomes u d v s i with heq | ⟨hni, heq | heq | heq | ⟨_, heq⟩⟩
  · rw [heq]; exact h
  · rw [heq]
    exact ⟨h.1, fun j hj => List.mem_cons_of_mem _ (h.2 j hj)⟩
  · rw [heq]; exact atMostOnce_append s i hni h
  · rw [heq]; exact atMostOnce_append s i hni h
  · rw [heq]; exact atMostOnce_append s i hni h

theorem atMostOnce_vlcInspect (d : Nat) (v : ChunkView) (s : LoopState)
    (i : Nat) (h : atMostOnce s) : atMostOnce (vlcInspectChunk d v s i) := by
  rcases vlcInspectChunk_outcomes d v s i with heq | ⟨hni, heq | heq | heq | ⟨_, heq⟩⟩
  · rw [heq]; exact h
  · rw [heq]
    exact ⟨h.1, fun j hj => List.mem_cons_of_mem _ (h.2 j hj)⟩
  · rw [heq]; exact atMostOnce_append s i hni h
  · rw [heq]; exact atMostOnce_append s i hni h
  · rw [heq]; exact atMostOnce_append s i hni h

theorem runLoop_atMostOnce (u : Bool) (d : Nat) (env : Nat → Nat → ChunkView)
    (running alive : Nat → Bool) (n : Nat) :
    atMostOnce (runLoop u d env running alive n) :=
  runLoop_preserve u d env running alive atMostOnce
    ⟨List.nodup_nil, by intro j hj; simp [initLoopState] at hj⟩
    (fun n s i hs => atMostOnce_inspect u d (env n i) s i hs) n

theorem vlcRunLoop_atMostOnce (d : Nat) (env : Nat → Nat → ChunkView)
    (cont : Nat → Bool) (n : Nat) :
    atMostOnce (vlcRunLoop d env cont n) :=
  vlcRunLoop_preserve d env cont atMostOnce
    ⟨List.nodup_nil, by intro j hj; simp [initLoopState] at hj⟩
    (fun n s i hs => atMostOnce_vlcInspect d (env n i) s i hs) n

/- ### Subtitle store invariant (C3) -/

/-- The store invariant: `subtitle_index` is one past the cue count, cue
indices are exactly `1..N` in order, start times are non-decreasing and
bounded by the watermark, and every flushed snapshot is a prefix of the
in-memory list satisfying the same index/order properties. -/
def storeInv (d : Nat) (s : LoopState) : Prop :=
  s.subtitleIndex = s.allSubtitles.length + 1
  ∧ s.allSubtitles.map Cue.index = List.range' 1 s.allSubtitles.length
  ∧ List.Chain' (fun a b => a ≤ b) (s.allSubtitles.map Cue.start)
  ∧ (∀ q ∈ s.allSubtitles.map Cue.start, q + (d : ℚ) ≤ ((s.chunkCounter * d : ℕ) : ℚ))
  ∧ (∀ fl ∈ s.flushes, fl.isPrefixOf s.allSubtitles = true
      ∧ fl.map Cue.index = List.range' 1 fl.length
      ∧ List.Chain' (fun a b => a ≤ b) (fl.map Cue.start))

theorem natCast_mul_le (d a b : Nat) (h : a ≤ b) :
    ((a * d : ℕ) : ℚ) ≤ ((b * d : ℕ) : ℚ) := by
  exact_mod_cast Nat.mul_le_mul_right d h

theorem storeInv_counter_mono (d : Nat) (s : LoopState) (c' : Nat)
    (hc : s.chunkCounter ≤ c')
    (h : ∀ q ∈ s.allSubtitles.map Cue.start, q + (d : ℚ) ≤ ((s.chunkCounter * d : ℕ) : ℚ)) :
    ∀ q ∈ s.allSubtitles.map Cue.start, q + (d : ℚ) ≤ ((c' * d : ℕ) : ℚ) := by
  intro q hq
  exact le_trans (h q hq) (natCast_mul_le d _ _ hc)

theorem storeInv_cue_step (d : Nat) (s : LoopState) (i : Nat) (t : String)
    (h : storeInv d s) (hci : s.chunkCounter ≤ i) :
    let cue : Cue := { index := s.subtitleIndex, start := ((i * d : ℕ) : ℚ),
                       endTime := (((i + 1) * d : ℕ) : ℚ), text := t }
    (s.subtitleIndex + 1 = (s.allSubtitles ++ [cue]).length + 1)
    ∧ (s.allSubtitles ++ [cue]).map Cue.index
        = List.range' 1 (s.allSubtitles ++ [cue]).length
    ∧ List.Chain' (fun a b => a ≤ b) ((s.allSubtitles ++ [cue]).map Cue.start)
    ∧ (∀ q ∈ (s.allSubtitles ++ [cue]).map Cue.start,
        q + (d : ℚ) ≤ (((i + 1) * d : ℕ) : ℚ)) := by
  intro cue
  obtain ⟨ha, hb, hc, hd, _⟩ := h
  have hlen : (s.allSubtitles ++ [cue]).length = s.allSubtitles.length + 1 := by
    simp
  have hmapidx : (s.allSubtitles ++ [cue]).map Cue.index
      = s.allSubtitles.map Cue.index ++ [s.subtitleIndex] := by
    simp [cue]
  have hmapstart : (s.allSubtitles ++ [cue]).map Cue.start
      = s.allSubtitles.map Cue.start ++ [((i * d : ℕ) : ℚ)] := by
    simp [cue]
  refine ⟨by omega, ?_, ?_, ?_⟩
  · rw [hmapidx, hlen, hb, ha, List.range'_1_concat]
    simp [Nat.add_comm]
  · rw [hmapstart, List.chain'_append]
    refine ⟨hc, List.chain'_singleton _, ?_⟩
    intro a hla b hhb
    simp only [List.head?_cons, Option.mem_def, Option.some.injEq] at hhb
    subst hhb
    have hamem : a ∈ s.allSubtitles.map Cue.start := by
      rcases List.mem_getLast?_eq_getLast hla with ⟨hne, heq⟩
      rw [heq]
      exact List.getLast_mem hne
    have h1 := hd a hamem
    have h2 : ((s.chunkCounter * d : ℕ) : ℚ) ≤ ((i * d : ℕ) : ℚ) :=
      natCast_mul_le d _ _ hci
    have h3 : (0 : ℚ) ≤ (d : ℚ) := by positivity
    linarith
  · rw [hmapstart]
    intro q hq
    rcases List.mem_append.mp hq with hq | hq
    · have h1 := hd q hq
      have h2 : ((s.chunkCounter * d : ℕ) : ℚ) ≤ (((i + 1) * d : ℕ) : ℚ) :=
        natCast_mul_le d _ _ (by omega)
      linarith
    · simp only [List.mem_singleton] at hq
      subst hq
      have : ((i * d : ℕ) : ℚ) + (d : ℚ) = (((i + 1) * d : ℕ) : ℚ) := by
        push_cast
        ring
      rw [this]

theorem storeInv_step (u : Bool) (d : Nat) (v : ChunkView) (s : LoopState)
    (i : Nat) (h : storeInv d s) (hci : s.chunkCounter ≤ i) :
    storeInv d (inspectChunk u d v s i)
      ∧ (inspectChunk u d v s i).chunkCounter ≤ i + 1 := by
  obtain ⟨ha, hb, hc, hd, he⟩ := h
  rcases inspectChunk_outcomes u d v s i with heq | ⟨hni, heq | heq | heq | ⟨ht, heq⟩⟩
  · rw [heq]
    exact ⟨⟨ha, hb, hc, hd, he⟩, by omega⟩
  · rw [heq]
    exact ⟨⟨ha, hb, hc, hd, he⟩, by show s.chunkCounter ≤ i + 1; omega⟩
  · rw [heq]
    exact ⟨⟨ha, hb, hc, hd, he⟩, by show s.chunkCounter ≤ i + 1; omega⟩
  · rw [heq]
    refine ⟨⟨ha, hb, hc, ?_, he⟩, le_rfl⟩
    exact storeInv_counter_mono d s (i + 1) (by omega) hd
  · rw [heq]
    have hstep := storeInv_cue_step d s i (pyStrip v.text) ⟨ha, hb, hc, hd, he⟩ hci
    refine ⟨⟨hstep.1, hstep.2.1, hstep.2.2.1, hstep.2.2.2, ?_⟩, le_rfl⟩
    intro fl hfl
    rcases List.mem_append.mp hfl with hfl | hfl
    · obtain ⟨hpre, hidx, hch⟩ := he fl hfl
      refine ⟨?_, hidx, hch⟩
      rw [List.isPrefixOf_iff_prefix] at hpre ⊢
      exact hpre.trans (List.prefix_append _ _)
    · simp only [List.mem_singleton] at hfl
      subst hfl
      refine ⟨?_, hstep.2.1, hstep.2.2.1⟩
      rw [List.isPrefixOf_iff_prefix]
      exact List.prefix_refl _

theorem runLoop_storeInv (u : Bool) (d : Nat) (env : Nat → Nat → ChunkView)
    (running alive : Nat → Bool) (n : Nat) :
    storeInv d (runLoop u d env running alive n) :=
  runLoop_preserve_ordered u d env running alive (storeInv d)
    (by
      refine ⟨rfl, rfl, ?_, ?_, ?_⟩
      · exact List.chain'_nil
      · intro q hq; simp [initLoopState] at hq
      · intro fl hfl; simp [initLoopState] at hfl)
    (fun _ s i hs hci => storeInv_step u d (env _ i) s i hs hci) n

/- ### Encoder-restart bookkeeping (C8) -/

theorem hls_restarts_step (d : Nat) (v : ChunkView) (s : LoopState) (i : Nat)
    (h : s.restarts = []) : (inspectChunk true d v s i).restarts = [] := by
  rcases inspectChunk_outcomes true d v s i with heq | ⟨_, heq | heq | heq | ⟨_, heq⟩⟩
  all_goals rw [heq]
  all_goals exact h

theorem runLoop_hls_no_restarts (d : Nat) (env : Nat → Nat → ChunkView)
    (running alive : Nat → Bool) (n : Nat) :
    (runLoop true d env running alive n).restarts = [] :=
  runLoop_preserve true d env running alive (fun s => s.restarts = []) rfl
    (fun _ s i hs => hls_restarts_step d (env _ i) s i hs) n

theorem nohls_restarts_step (d : Nat) (v : ChunkView) (s : LoopState) (i : Nat)
    (h : s.restarts.length = s.allSubtitles.length) :
    (inspectChunk false d v s i).restarts.length
      = (inspectChunk false d v s i).allSubtitles.length := by
  rcases inspectChunk_outcomes false d v s i with heq | ⟨_, heq | heq | heq | ⟨_, heq⟩⟩
  all_goals rw [heq]
  all_goals try exact h
  simp [cueState, h]

theorem runLoop_nohls_restart_per_cue (d : Nat) (env : Nat → Nat → ChunkView)
    (running alive : Nat → Bool) (n : Nat) :
    (runLoop false d env running alive n).restarts.length
      = (runLoop false d env running alive n).allSubtitles.length :=
  runLoop_preserve false d env running alive
    (fun s => s.restarts.length = s.allSubtitles.length) rfl
    (fun _ s i hs => nohls_restarts_step d (env _ i) s i hs) n

theorem vlc_restarts_step (d : Nat) (v : ChunkView) (s : LoopState) (i : Nat)
    (h : s.restarts.all (fun r => r % 3 == 0) = true) :
    (vlcInspectChunk d v s i).restarts.all (fun r => r % 3 == 0) = true := by
  rcases vlcInspectChunk_outcomes d v s i with heq | ⟨_, heq | heq | heq | ⟨_, heq⟩⟩
  all_goals rw [heq]
  all_goals try exact h
  show (if (s.subtitleIndex % 3 == 0) = true then s.restarts ++ [s.subtitleIndex]
    else s.restarts).all _ = true
  by_cases h3 : (s.subtitleIndex % 3 == 0) = true
  · rw [if_pos h3]
    simp only [List.all_append, h, Bool.true_and, List.all_cons, List.all_nil,
      Bool.and_true]
    exact h3
  · rw [if_neg h3]
    exact h

theorem vlcRunLoop_restarts_div3 (d : Nat) (env : Nat → Nat → ChunkView)
    (cont : Nat → Bool) (n : Nat) :
    (vlcRunLoop d env cont n).restarts.all (fun r => r % 3 == 0) = true :=
  vlcRunLoop_preserve d env cont (fun s => s.restarts.all (fun r => r % 3 == 0) = true)
    rfl (fun _ s i hs => vlc_restarts_step d (env _ i) s i hs) n

/- ### Zero-size chunks are consumed silently (C5) -/

theorem zero_chunk_not_logged_step (u : Bool) (d : Nat) (env : Nat → Nat → ChunkView)
    (i0 : Nat) (henv : ∀ p, (env p i0).size = 0) (n : Nat) (s : LoopState) (i : Nat)
    (h : i0 ∉ s.transcribedLog) :
    i0 ∉ (inspectChunk u d (env n i) s i).transcribedLog := by
  by_cases hii : i = i0
  · subst hii
    by_cases hcond : ((env n i).present && !(s.processed.contains i)) = true
    · rw [inspectChunk_zero u d _ s i hcond (henv n)]
      exact h
    · rw [inspectChunk_skip u d _ s i (bool_eq_false hcond)]
      exact h
  · have hne : ∀ hmem : i0 ∈ s.transcribedLog ++ [i], False := by
      intro hmem
      rcases List.mem_append.mp hmem with hm | hm
      · exact h hm
      · simp only [List.mem_singleton] at hm
        exact hii hm.symm
    rcases inspectChunk_outcomes u d (env n i) s i
      with heq | ⟨_, heq | heq | heq | ⟨_, heq⟩⟩
    all_goals rw [heq]
    all_goals try exact h
    all_goals exact fun hmem => hne hmem

theorem runLoop_zero_chunk_not_logged (u : Bool) (d : Nat)
    (env : Nat → Nat → ChunkView) (running alive : Nat → Bool) (i0 : Nat)
    (henv : ∀ p, (env p i0).size = 0) (n : Nat) :
    i0 ∉ (runLoop u d env running alive n).transcribedLog :=
  runLoop_preserve u d env running alive (fun s => i0 ∉ s.transcribedLog)
    (by simp [initLoopState])
    (fun m s i hs => zero_chunk_not_logged_step u d env i0 henv m s i hs) n

/- ### The loop stops polling once `running` is observed false (C7) -/

theorem runLoop_no_polls_after_stop (u : Bool) (d : Nat)
    (env : Nat → Nat → ChunkView) (running alive : Nat → Bool) (N : Nat)
    (h : ∀ m, N ≤ m → running m = false) :
    ∀ k, runLoop u d env running alive (N + k) = runLoop u d env running alive N := by
  intro k
  induction k with
  | zero => rfl
  | succ k ih =>
    show runLoop u d env running alive (N + k + 1) = _
    simp only [runLoop]
    rw [h (N + k) (by omega)]
    simpa using ih

/- ### Concrete environments used by scenario theorems -/

def constTrue : Nat → Bool := fun _ => true

/-- The spec's scenario: five chunks with recognized texts
`["", "hello", "", "world", "test"]`, all present from the first poll. -/
def envScenario : Nat → Nat → ChunkView := fun _ i =>
  if i = 0 then ⟨true, 5, "", true⟩
  else if i = 1 then ⟨true, 5, "hello", true⟩
  else if i = 2 then ⟨true, 5, "", true⟩
  else if i = 3 then ⟨true, 5, "world", true⟩
  else if i = 4 then ⟨true, 5, "test", true⟩
  else ⟨false, 0, "", true⟩

/-- Ten consecutive zero-byte chunks followed by a ready non-empty chunk at
index 10. -/
def envStall : Nat → Nat → ChunkView := fun _ i =>
  if i < 10 then ⟨true, 0, "", true⟩
  else if i = 10 then ⟨true, 5, "hi", true⟩
  else ⟨false, 0, "", true⟩

/-- Two ready chunks with texts `"a"` and `"b"`. -/
def envTwo : Nat → Nat → ChunkView := fun _ i =>
  if i = 0 then ⟨true, 5, "a", true⟩
  else if i = 1 then ⟨true, 5, "b", true⟩
  else ⟨false, 0, "", true⟩

/-- A `running` flag that is observed true for the first poll cycle only:
`stop()` is called while that cycle's first transcription is in flight. -/
def runStopAfter0 : Nat → Bool := fun n => n == 0

/-- The placeholder cue written by `_init_srt_file`. -/
def placeholderCue : Cue :=
  { index := 1, start := 0, endTime := 1, text := "Caricamento sottotitoli..." }

def fsFull : SessionFS := ⟨true, true, true, true, true, true, true, true⟩

def cleanupOk : CleanupEnv := ⟨false, false, false⟩

theorem format_srt_time_zero : format_srt_time 0 = "00:00:00,000" := by
  rw [show (0 : ℚ) = ((0 : ℕ) : ℚ) / 1000 by norm_num, format_srt_time_ms]
  decide

theorem format_srt_time_one : format_srt_time 1 = "00:00:01,000" := by
  rw [show (1 : ℚ) = ((1000 : ℕ) : ℚ) / 1000 by norm_num, format_srt_time_ms]
  decide

/-- The initial file written by `_init_srt_file` is exactly the serialized
placeholder cue. -/
theorem init_srt_content_eq : init_srt_content = srtContent [placeholderCue] := by
  have h : srtContent [placeholderCue]
      = natStr 1 ++ "\n" ++ format_srt_time 0 ++ " --> " ++ format_srt_time 1
        ++ "\n" ++ "Caricamento sottotitoli..." ++ "\n\n" ++ "" := rfl
  rw [h, format_srt_time_zero, format_srt_time_one]
  decide

theorem placeholder_parses : cueParses placeholderCue := by
  refine ⟨⟨0, by norm_num, by norm_num [placeholderCue]⟩,
    ⟨1000, by norm_num, by norm_num [placeholderCue]⟩,
    by decide, by decide, by decide⟩

/- ### Claim theorems -/

/-- C1: with `chunkDuration = 10` and five discovered chunks whose
recognized texts are `["", "hello", "", "world", "test"]` (chunk-index
order `0..4`), the final in-memory cue list is exactly
`[{1,10,20,"hello"}, {2,30,40,"world"}, {3,40,50,"test"}]`: empty
transcriptions produce no cue and consume no cue index, and every appended
cue spans `[chunkIndex*chunkDuration, (chunkIndex+1)*chunkDuration]`. -/
theorem claim_c1_scenario :
    (runLoop true 10 envScenario constTrue constTrue 1).allSubtitles
      = [{ index := 1, start := 10, endTime := 20, text := "hello" },
         { index := 2, start := 30, endTime := 40, text := "world" },
         { index := 3, start := 40, endTime := 50, text := "test" }] := by
  decide

/-- C2: chunk indices are claimed at most once — for every poll sequence of
the web worker loop and of the vlc loop, the sequence of indices passed to
the transcriber has no duplicates, even across transcription errors
(an index enters the processed set before any fallible step and is never
re-inspected). -/
theorem claim_c2_at_most_once (u : Bool) (d : Nat) (env : Nat → Nat → ChunkView)
    (running alive cont : Nat → Bool) (n : Nat) :
    (runLoop u d env running alive n).transcribedLog.Nodup
      ∧ (vlcRunLoop d env cont n).transcribedLog.Nodup :=
  ⟨(runLoop_atMostOnce u d env running alive n).1,
   (vlcRunLoop_atMostOnce d env cont n).1⟩

/-- C3: in every reachable worker state, the in-memory cue list has indices
exactly `1..N` in ascending order, its start times are non-decreasing, and
every flushed file snapshot is a prefix of the append order (hence never
reordered and never missing an earlier cue while holding a later one) and
itself satisfies the same index/order properties. -/
theorem claim_c3_store_order (u : Bool) (d : Nat) (env : Nat → Nat → ChunkView)
    (running alive : Nat → Bool) (n : Nat) :
    ((runLoop u d env running alive n).allSubtitles.map Cue.index
        = List.range' 1 (runLoop u d env running alive n).allSubtitles.length)
    ∧ List.Chain' (fun a b => a ≤ b)
        ((runLoop u d env running alive n).allSubtitles.map Cue.start)
    ∧ ∀ fl ∈ (runLoop u d env running alive n).flushes,
        fl.isPrefixOf (runLoop u d env running alive n).allSubtitles = true
        ∧ fl.map Cue.index = List.range' 1 fl.length
        ∧ List.Chain' (fun a b => a ≤ b) (fl.map Cue.start) := by
  have h := runLoop_storeInv u d env running alive n
  exact ⟨h.2.1, h.2.2.1, h.2.2.2.2⟩

theorem claim_c3_store_order_witness :
    ((runLoop true 10 envScenario constTrue constTrue 1).allSubtitles.map Cue.index
        = List.range' 1 (runLoop true 10 envScenario constTrue constTrue 1).allSubtitles.length)
    ∧ (([{ index := 1, start := 10, endTime := 20, text := "hello" }] : List Cue).isPrefixOf
        (runLoop true 10 envScenario constTrue constTrue 1).allSubtitles = true) :=
  ⟨(claim_c3_store_order true 10 envScenario constTrue constTrue 1).1,
   ((claim_c3_store_order true 10 envScenario constTrue constTrue 1).2.2
     [{ index := 1, start := 10, endTime := 20, text := "hello" }] (by decide)).1⟩

/-- C4 (counterexample): the round-trip is not byte-exact for every
non-empty single-block text.  For the cue `{1, 0s, 1s, "hello "}` —
positive index, valid times, non-empty single-block text — the parser
returns `"hello"`: `match[9].strip()` removes the trailing space, so the
parsed cue differs from the written one. -/
theorem claim_c4_counterexample :
    parseSrt (srtContent [{ index := 1, start := 0, endTime := 1, text := "hello " }])
        = [{ index := 1, start := 0, endTime := 1, text := "hello" }]
      ∧ (([{ index := 1, start := 0, endTime := 1, text := "hello" }] : List Cue)
          == [{ index := 1, start := 0, endTime := 1, text := "hello " }]) = false := by
  constructor
  · rw [parseSrt_srtContent [{ index := 1, start := 0, endTime := 1, text := "hello " }]
      (by
        intro c hc
        simp only [List.mem_singleton] at hc
        subst hc
        exact ⟨⟨0, by norm_num, by norm_num⟩, ⟨1000, by norm_num, by norm_num⟩,
          by decide, by decide, by decide⟩)]
    simp only [List.map_cons, List.map_nil]
    rw [show pyStrip "hello " = "hello" from by decide]
  · decide

/-- C4 (amended): writing the SRT file and re-parsing it with the session's
regex reproduces the same `N` cues in the same order with byte-exact text
(multi-line texts included), for every cue list whose times are whole
milliseconds below 100 hours and whose texts are non-empty, free of
leading/trailing whitespace (`strip()`-invariant), and free of internal
lines that mimic a following cue header (`\d+\s+\d\d:`). -/
theorem claim_c4_roundtrip (cs : List Cue)
    (h : ∀ c ∈ cs, cueParses c ∧ pyStrip c.text = c.text) :
    parseSrt (srtContent cs) = cs := by
  rw [parseSrt_srtContent cs (fun c hc => (h c hc).1)]
  conv_rhs => rw [← List.map_id cs]
  apply List.map_congr_left
  intro c hc
  have h2 := (h c hc).2
  cases c
  simp only [id]
  simp only at h2
  rw [h2]

theorem claim_c4_roundtrip_witness :
    parseSrt (srtContent [{ index := 1, start := 0, endTime := 1, text := "foo\nbar" }])
      = [{ index := 1, start := 0, endTime := 1, text := "foo\nbar" }] :=
  claim_c4_roundtrip [{ index := 1, start := 0, endTime := 1, text := "foo\nbar" }]
    (by
      intro c hc
      simp only [List.mem_singleton] at hc
      subst hc
      exact ⟨⟨⟨0, by norm_num, by norm_num⟩, ⟨1000, by norm_num, by norm_num⟩,
        by decide, by decide, by decide⟩, by decide⟩)

/-- C5 (counterexample): a run of zero-byte chunks does block the watermark.
With chunks 0..9 zero-byte and chunk 10 present, non-empty and ready, one
poll marks 0..9 processed but leaves `chunk_counter = 0`; the next poll
changes nothing (the state is a fixpoint, since every poll re-scans the same
window `[chunk_counter, chunk_counter+10)`), so chunk 10 is never claimed
and no transcription ever happens — processing of later chunk indices does
not continue past the stalled window. -/
theorem claim_c5_counterexample :
    runLoop true 10 envStall constTrue constTrue 2
        = runLoop true 10 envStall constTrue constTrue 1
    ∧ (runLoop true 10 envStall constTrue constTrue 2).transcribedLog = []
    ∧ (runLoop true 10 envStall constTrue constTrue 2).chunkCounter = 0
    ∧ (envStall 0 10).present = true ∧ (envStall 0 10).size = 5 := by
  decide

/-- C5 (amended): a chunk that is zero-byte whenever inspected never
produces a transcription call (hence never a cue), and inspecting a
zero-size chunk only marks its index processed — it leaves the cue list,
the file, and the watermark untouched, so later indices inside the same
10-index lookahead window are still claimed; but the watermark itself
advances only past successfully transcribed chunks, so ten or more
consecutive zero-byte chunks permanently stall discovery beyond the
window. -/
theorem claim_c5_zero_chunks (u : Bool) (d : Nat) (env : Nat → Nat → ChunkView)
    (running alive : Nat → Bool) (i0 n : Nat)
    (henv : ∀ p, (env p i0).size = 0) :
    i0 ∉ (runLoop u d env running alive n).transcribedLog
    ∧ ∀ (v : ChunkView) (s : LoopState) (i : Nat),
        (v.present && !(s.processed.contains i)) = true → v.size = 0 →
          inspectChunk u d v s i = { s with processed := i :: s.processed } :=
  ⟨runLoop_zero_chunk_not_logged u d env running alive i0 henv n,
   fun v s i hc hz => inspectChunk_zero u d v s i hc hz⟩

theorem claim_c5_zero_chunks_witness :
    0 ∉ (runLoop true 10 envStall constTrue constTrue 1).transcribedLog :=
  (claim_c5_zero_chunks true 10 envStall constTrue constTrue 0 1 (fun _ => rfl)).1

/-- C6 (counterexample): in `VideoTranscriptionSession.start` (web_app.py),
when the encoder launches and then exits within the 3-second verification
window, the premature exit is only printed: the session status stays
`"running"`, `start` still returns `True`, and the worker-loop condition
remains true while the audio process is alive, so polling continues. -/
theorem claim_c6_counterexample :
    (webStart false "" true).status = "running"
    ∧ (webStart false "" true).startReturn = true
    ∧ processAudioWhileCond true true false = true := by
  decide

theorem simpleStartVerify_error_some (code : Int) (tail : String) :
    (simpleStartVerify (some code) tail).error =
      some ("FFmpeg terminato (exit code: " ++ toString code ++ "):\n"
              ++ tail.take 2000) := rfl

/-- C6 (amended): only `SimpleVideoSession.start` (web_app_simple.py)
implements the claimed behavior — an encoder exit code observed within the
verification window sets status `"error"` with a non-empty diagnostic and
makes `start` return `False`; `VideoTranscriptionSession.start`
(web_app.py) leaves the status `"running"` regardless of the premature
exit. -/
theorem claim_c6_error_on_early_exit (code : Int) (tail : String) (exited : Bool) :
    (simpleStartVerify (some code) tail).status = "error"
    ∧ (simpleStartVerify (some code) tail).startReturn = false
    ∧ 0 < ((simpleStartVerify (some code) tail).error.getD "").length
    ∧ (webStart false "" exited).status = "running" := by
  refine ⟨rfl, rfl, ?_, rfl⟩
  rw [simpleStartVerify_error_some, Option.getD_some, String.length_append,
      String.length_append, String.length_append]
  have h29 : 0 < "FFmpeg terminato (exit code: ".length := by decide
  omega

/-- C7 (counterexample): the `running` flag is read only once per poll
cycle (web_app.py line 351), so a cycle that is already in flight when
`stop()` clears the flag completes its whole 10-index window: with two
ready chunks and `running` cleared after the first cycle begins, both
chunk 0 and chunk 1 are claimed for transcription and appended as cues in
that same cycle — chunk 1, beyond the in-flight chunk 0, is still
claimed. -/
theorem claim_c7_counterexample :
    runStopAfter0 1 = false
    ∧ (runLoop true 10 envTwo runStopAfter0 constTrue 1).transcribedLog = [0, 1]
    ∧ (runLoop true 10 envTwo runStopAfter0 constTrue 1).allSubtitles
        = [{ index := 1, start := 0, endTime := 10, text := "a" },
           { index := 2, start := 10, endTime := 20, text := "b" }]
    ∧ runLoop true 10 envTwo runStopAfter0 constTrue 2
        = runLoop true 10 envTwo runStopAfter0 constTrue 1 := by
  decide

/-- C7 (amended): once the `running` flag reads false, no later poll cycle
runs — the worker state after any number of further iterations equals the
state at the moment the flag was first observed false; the in-flight cycle
itself, however, runs to completion (see the counterexample). -/
theorem claim_c7_stop_semantics (u : Bool) (d : Nat) (env : Nat → Nat → ChunkView)
    (running alive : Nat → Bool) (N : Nat)
    (h : ∀ m, N ≤ m → running m = false) (k : Nat) :
    runLoop u d env running alive (N + k) = runLoop u d env running alive N :=
  runLoop_no_polls_after_stop u d env running alive N h k

theorem claim_c7_stop_semantics_witness :
    runLoop true 10 envTwo runStopAfter0 constTrue (1 + 2)
      = runLoop true 10 envTwo runStopAfter0 constTrue 1 :=
  claim_c7_stop_semantics true 10 envTwo runStopAfter0 constTrue 1
    (fun m hm =>
      match m, hm with
      | m + 1, _ => rfl) 2

/-- C8: restart policy of the encoder. In HLS mode (web_app.py lines
399-401 guard `if not use_hls_stream`) the worker never terminates and
relaunches the encoder — the restart log stays empty for every poll
sequence; in non-HLS mode the encoder is restarted once per appended cue;
and in the vlc player pipeline (vlc_speech2text.py lines 562-592) a
restart happens only when the cue counter is a multiple of 3. -/
theorem claim_c8_hls_never_restarts (d : Nat) (env : Nat → Nat → ChunkView)
    (running alive cont : Nat → Bool) (n : Nat) :
    (runLoop true d env running alive n).restarts = []
    ∧ (runLoop false d env running alive n).restarts.length
        = (runLoop false d env running alive n).allSubtitles.length
    ∧ (vlcRunLoop d env cont n).restarts.all (fun r => r % 3 == 0) = true :=
  ⟨runLoop_hls_no_restarts d env running alive n,
   runLoop_nohls_restart_per_cue d env running alive n,
   vlcRunLoop_restarts_div3 d env cont n⟩

/-- C9 (counterexample): `cleanup()` (web_app.py lines 618-647) removes the
subtitle file, the output pipe and the HLS directory but does not touch the
scratch chunk directory — after a successful `cleanup()` on a session with
all artifacts present, the chunk directory still exists while the SRT file
is gone. -/
theorem claim_c9_counterexample :
    (cleanupSession cleanupOk fsFull).chunkDir = true
    ∧ (cleanupSession cleanupOk fsFull).srt = false := by
  decide

/-- C9 (amended): `cleanup()` is idempotent under every failure
environment and never raises (every deletion branch is modelled, failures
included); when deletions succeed it removes the subtitle file, the output
pipe (when its path was set) and the HLS directory and clears `running`,
but it leaves the scratch chunk directory exactly as it was — that
directory is removed by the worker's own `finally` block
(`workerFinally`), not by `cleanup()`. -/
theorem claim_c9_cleanup (e : CleanupEnv) (fs : SessionFS) :
    cleanupSession e (cleanupSession e fs) = cleanupSession e fs
    ∧ (cleanupSession cleanupOk fs).srt = false
    ∧ (cleanupSession cleanupOk fs).pipe = (!fs.pipePathSet && fs.pipe)
    ∧ (cleanupSession cleanupOk fs).hls = false
    ∧ (cleanupSession cleanupOk fs).chunkDir = fs.chunkDir
    ∧ (cleanupSession cleanupOk fs).running = false
    ∧ (workerFinally false (cleanupSession cleanupOk fs)).chunkDir = false := by
  rcases e with ⟨a, b, c⟩
  rcases fs with ⟨s, pp, p, h, cd, vp, ap, r⟩
  revert a b c s pp p h cd vp ap r
  decide

/-- C10: immediately after construction, the subtitle file holds exactly
the placeholder cue `1 // 00:00:00,000 --> 00:00:01,000 //
"Caricamento sottotitoli..."` (web_app.py lines 124-130) — parsing the
initial file content yields exactly that one cue; the in-memory cue list
and the `/api/status` subtitle slice start empty (the placeholder is never
in them); and every flushed file snapshot is a prefix of the in-memory cue
list, so the first flush of a real cue fully overwrites the file and the
placeholder never coexists with real cues. -/
theorem claim_c10_placeholder :
    parseSrt init_srt_content = [placeholderCue]
    ∧ initLoopState.allSubtitles = []
    ∧ statusSubtitles initLoopState.allSubtitles = []
    ∧ ∀ (u : Bool) (d : Nat) (env : Nat → Nat → ChunkView)
        (running alive : Nat → Bool) (n : Nat),
        ((runLoop u d env running alive n).flushes.all
          (fun fl =>
            fl.isPrefixOf (runLoop u d env running alive n).allSubtitles)) = true := by
  refine ⟨?_, rfl, rfl, ?_⟩
  · rw [init_srt_content_eq,
      parseSrt_srtContent [placeholderCue] (by
        intro c hc
        simp only [List.mem_singleton] at hc
        subst hc
        exact placeholder_parses)]
    show [{ placeholderCue with text := pyStrip placeholderCue.text }] = [placeholderCue]
    decide
  · intro u d env running alive n
    have h := runLoop_storeInv u d env running alive n
    rw [List.all_eq_true]
    intro fl hfl
    exact (h.2.2.2.2 fl hfl).1
